import Mathlib

set_option maxHeartbeats 1000000

/-! # Verification of the block-sync reactor

Shallow embedding of the block-sync subsystem of `decentrio/inj-cometbft`:
the reactor driver (`internal/blocksync/reactor.go`) and the generated
protobuf wire codec (`proto/cometbft/blocksync/v2/types.pb.go`).

Conventions of the embedding:

* Go byte slices are `List Nat` with every element below 256 (the encoders
  only produce such bytes); `uint64` arithmetic carries an explicit
  `% 2 ^ 64` where Go would overflow.
* Go `time.Time` values are nanosecond counts (`Int`); `t.After(u)` is
  `u < t`.
* Fallible Go functions return `Option`/`Except`; a `nil` pointer is
  `Option.none`.
* External collaborators that the reactor only invokes (the structural
  `ValidateBasic` check, the cryptographic validator-set hash, the block
  store, the executor) are passed in as explicit oracle values, so each
  embedded routine is a pure function of its inputs.
-/

/-- Byte strings (hashes, wire buffers) are lists of byte values. -/
abbrev Bytes := List Nat

/-- Peer node identifier, Go `types.NodeID`. -/
abbrev NodeID := String

/-- The block-header fields read by the reactor (`types.Header`). -/
structure Header where
  height : Int
  time : Int
  chainID : String
  validatorsHash : Bytes
  nextValidatorsHash : Bytes
  deriving DecidableEq, Repr

/-- Aggregated commit; the reactor never inspects its fields directly, it
only threads commits through to the verifier and the store, so a single
height field suffices to keep the type concrete. -/
structure Commit where
  height : Int
  deriving DecidableEq, Repr

/-- Go `types.SignedHeader`: a header plus an optional commit pointer. -/
structure SignedHeader where
  header : Header
  commit : Option Commit
  deriving DecidableEq, Repr

/-- Validator sets enter the reactor only through their cryptographic
digest `Hash()` (out of scope per the spec), modelled by the stored
digest. -/
structure ValidatorSet where
  hash : Bytes
  deriving DecidableEq, Repr

/-- A Go `error` value as the reactor distinguishes them: `plain` covers
`errors.New` and `fmt.Errorf`, while `invalidHeader` is the typed
`light.ErrInvalidHeader` wrapper. -/
inductive GoErr where
  | plain (msg : String)
  | invalidHeader (msg : String)
  deriving DecidableEq, Repr

/-- Whether an error is the typed `light.ErrInvalidHeader` (the tag the
spec calls a bad-peer error). -/
def GoErr.isInvalidHeader : GoErr → Bool
  | .invalidHeader _ => true
  | .plain _ => false

/-- The type of the external structural-validation oracle,
`SignedHeader.ValidateBasic(chainID)` from the `types` package: `none`
means the check passed, `some e` is its error text. -/
abbrev ValidateBasicFn := SignedHeader → String → Option String

/-- Embedding of `Reactor.VerifyAdjacent` (reactor.go lines 68-115),
check for check in source order.  `none` is the `nil` return. -/
def verifyAdjacent (vb : ValidateBasicFn)
    (trustedHeader untrustedHeader : SignedHeader)
    (untrustedVals : ValidatorSet) : Option GoErr :=
  if trustedHeader.header.nextValidatorsHash.length = 0 then
    some (.plain "next validators hash in trusted header is empty")
  else if untrustedHeader.header.height ≠ trustedHeader.header.height + 1 then
    some (.plain "headers must be adjacent in height")
  else
    match vb untrustedHeader trustedHeader.header.chainID with
    | some e => some (.plain ("untrustedHeader.ValidateBasic failed: " ++ e))
    | none =>
      if untrustedHeader.header.height ≤ trustedHeader.header.height then
        some (.plain "expected new header height to be greater than one of old header")
      else if ¬ trustedHeader.header.time < untrustedHeader.header.time then
        some (.plain "expected new header time to be after old header time")
      else if untrustedHeader.header.validatorsHash ≠ untrustedVals.hash then
        some (.plain "expected new header validators to match those that were supplied")
      else if untrustedHeader.header.validatorsHash ≠ trustedHeader.header.nextValidatorsHash then
        some (.invalidHeader "expected old header next validators to match those from new header")
      else
        none

/-- Channel identifier `BlockSyncChannel = p2p.ChannelID(0x40)`. -/
def BlockSyncChannel : Nat := 0x40

/-- `trySyncIntervalMS = 10`. -/
def trySyncIntervalMS : Nat := 10

/-- `statusUpdateIntervalSeconds = 10`. -/
def statusUpdateIntervalSeconds : Nat := 10

/-- `switchToConsensusIntervalSeconds = 1`. -/
def switchToConsensusIntervalSeconds : Nat := 1

/-- Go `time.Second` in nanoseconds. -/
def timeSecond : Int := 1000000000

/-- `syncTimeout = 60 * time.Second`. -/
def syncTimeout : Int := 60 * timeSecond

/-- The fields of `p2p.ChannelDescriptor` that `GetChannelDescriptor`
fills with data (the `MessageType` witness is a Go type tag and carries
no data). -/
structure ChannelDescriptor where
  id : Nat
  priority : Nat
  sendQueueCapacity : Nat
  recvBufferCapacity : Nat
  recvMessageCapacity : Nat
  deriving DecidableEq, Repr

/-- Embedding of `GetChannelDescriptor` (reactor.go lines 42-51).  The
per-message cap `MaxMsgSize` is an external constant of the package that
is not part of the given sources, so it stays a parameter. -/
def GetChannelDescriptor (maxMsgSize : Nat) : ChannelDescriptor :=
  { id := BlockSyncChannel
    priority := 5
    sendQueueCapacity := 1000
    recvBufferCapacity := 1024
    recvMessageCapacity := maxMsgSize }

/-- A `ValidateBasic` oracle that always passes, used for concrete
evaluations. -/
def vbOk : ValidateBasicFn := fun _ _ => none

/-- Trusted header of the concrete rule-4 scenario: height 1, time 100. -/
def hdrT : Header :=
  { height := 1, time := 100, chainID := "test-chain"
    validatorsHash := [1], nextValidatorsHash := [2] }

/-- Untrusted header violating exactly rule 4: adjacent height but equal
time; its validator hash matches both the supplied set and
`hdrT.nextValidatorsHash`. -/
def hdrU4 : Header :=
  { height := 2, time := 100, chainID := "test-chain"
    validatorsHash := [2], nextValidatorsHash := [3] }

/-- Claim C2: `VerifyAdjacent` succeeds exactly when the trusted header's
next-validators hash is non-empty, the heights are adjacent, structural
validation passes, time strictly increases, and the untrusted validator
hash matches both the supplied set's hash and the trusted header's
next-validators hash; any violation yields an error. -/
theorem verifyAdjacent_ok_iff (vb : ValidateBasicFn)
    (T U : SignedHeader) (V : ValidatorSet) :
    verifyAdjacent vb T U V = none ↔
      (T.header.nextValidatorsHash ≠ [] ∧
       U.header.height = T.header.height + 1 ∧
       vb U T.header.chainID = none ∧
       T.header.time < U.header.time ∧
       U.header.validatorsHash = V.hash ∧
       U.header.validatorsHash = T.header.nextValidatorsHash) := by
  unfold verifyAdjacent
  rcases hvb : vb U T.header.chainID with _ | e <;>
    split_ifs with h1 h2 <;>
      simp_all [List.length_eq_zero]

/-- Claim C3, counterexample: a concrete input on which every rule before
rule 4 holds, rule 4 (strict time increase) fails, yet the returned error
is a plain `fmt.Errorf` value, not the typed bad-peer
`light.ErrInvalidHeader` tag. -/
theorem verifyAdjacent_rule4_untagged :
    hdrT.nextValidatorsHash ≠ [] ∧
    hdrU4.height = hdrT.height + 1 ∧
    vbOk ⟨hdrU4, none⟩ hdrT.chainID = none ∧
    ¬ hdrT.time < hdrU4.time ∧
    verifyAdjacent vbOk ⟨hdrT, none⟩ ⟨hdrU4, none⟩ ⟨[2]⟩ ≠ none ∧
    (verifyAdjacent vbOk ⟨hdrT, none⟩ ⟨hdrU4, none⟩ ⟨[2]⟩).any
      GoErr.isInvalidHeader = false := by
  decide

/-- Claim C3 as amended: the typed bad-peer tag `light.ErrInvalidHeader`
appears exactly on rule-6 failures (validator hash differing from the
trusted header's next-validators hash with every earlier rule satisfied);
failures of rules 2-5 return plain, untagged errors just like rule 1. -/
theorem verifyAdjacent_tag_iff (vb : ValidateBasicFn)
    (T U : SignedHeader) (V : ValidatorSet) :
    (verifyAdjacent vb T U V).any GoErr.isInvalidHeader = true ↔
      (T.header.nextValidatorsHash ≠ [] ∧
       U.header.height = T.header.height + 1 ∧
       vb U T.header.chainID = none ∧
       T.header.time < U.header.time ∧
       U.header.validatorsHash = V.hash ∧
       U.header.validatorsHash ≠ T.header.nextValidatorsHash) := by
  unfold verifyAdjacent
  rcases hvb : vb U T.header.chainID with _ | e <;>
    split_ifs with h1 h2 <;>
      simp_all [List.length_eq_zero, GoErr.isInvalidHeader]

/-- Claim C9: the channel descriptor advertises channel 0x40 with
priority 5, send queue 1000 and receive buffer 1024, and the reactor's
timing constants are 10 s status updates, 1 s switch-to-consensus ticks,
a 60 s sync timeout and a 10 ms try-sync interval. -/
theorem channelDescriptor_constants (maxMsgSize : Nat) :
    (GetChannelDescriptor maxMsgSize).id = 0x40 ∧
    (GetChannelDescriptor maxMsgSize).priority = 5 ∧
    (GetChannelDescriptor maxMsgSize).sendQueueCapacity = 1000 ∧
    (GetChannelDescriptor maxMsgSize).recvBufferCapacity = 1024 ∧
    (GetChannelDescriptor maxMsgSize).recvMessageCapacity = maxMsgSize ∧
    statusUpdateIntervalSeconds = 10 ∧
    switchToConsensusIntervalSeconds = 1 ∧
    syncTimeout = 60 * 1000000000 ∧
    trySyncIntervalMS = 10 := by
  refine ⟨rfl, rfl, rfl, rfl, rfl, rfl, rfl, by decide, rfl⟩

/-- Opaque handle for a `tmproto.Block` as stored by the block store;
`respondToPeer` only moves such values, never inspects them. -/
abbrev BlockProto := Nat

/-- Opaque handle for a `tmproto.Commit` from the block store. -/
abbrev CommitProto := Nat

/-- The block-sync wire messages as the reactor constructs and consumes
them (`bcproto` package). -/
inductive BcMsg where
  | blockRequest (height : Int)
  | blockResponse (block : BlockProto) (commit : CommitProto)
  | noBlockResponse (height : Int)
  | statusRequest
  | statusResponse (height base : Int)
  deriving DecidableEq, Repr

/-- A point-to-point envelope handed to `blockSyncCh.Send`. -/
structure Envelope where
  toPeer : NodeID
  message : BcMsg
  deriving DecidableEq, Repr

/-- The block-store lookups `respondToPeer` performs; `none` is the `nil`
pointer the store returns for a missing entry. -/
structure BlockStoreOracle where
  loadBlockProto : Int → Option BlockProto
  loadBlockCommitProto : Int → Option CommitProto

/-- Embedding of `Reactor.respondToPeer` (reactor.go lines 238-256),
returning the list of envelopes sent for one inbound
`BlockRequest{height}`. -/
def respondToPeer (store : BlockStoreOracle) (height : Int)
    (peerID : NodeID) : List Envelope :=
  match store.loadBlockProto height with
  | some block =>
    match store.loadBlockCommitProto height with
    | some blockCommit => [⟨peerID, .blockResponse block blockCommit⟩]
    | none => [⟨peerID, .noBlockResponse height⟩]
  | none => [⟨peerID, .noBlockResponse height⟩]

/-- Claim C4: every inbound `BlockRequest` gets exactly one reply to the
requesting peer: a `BlockResponse` carrying the stored block and commit
when both are present, and `NoBlockResponse{height}` otherwise. -/
theorem respondToPeer_spec (store : BlockStoreOracle) (h : Int) (p : NodeID) :
    (∀ b c, store.loadBlockProto h = some b →
      store.loadBlockCommitProto h = some c →
      respondToPeer store h p = [⟨p, .blockResponse b c⟩]) ∧
    ((store.loadBlockProto h = none ∨ store.loadBlockCommitProto h = none) →
      respondToPeer store h p = [⟨p, .noBlockResponse h⟩]) ∧
    (respondToPeer store h p).length = 1 := by
  unfold respondToPeer
  refine ⟨fun b c hb hc => by rw [hb, hc], fun hmiss => ?_, ?_⟩
  · rcases hmiss with hb | hc
    · rw [hb]
    · rw [hc]
      rcases store.loadBlockProto h with _ | b <;> rfl
  · rcases store.loadBlockProto h with _ | b
    · rfl
    · rcases store.loadBlockCommitProto h with _ | c <;> rfl

/-- Concrete store for the C4 witness: height 5 holds block 7 with
commit 9. -/
def storeW : BlockStoreOracle :=
  { loadBlockProto := fun _ => some 7
    loadBlockCommitProto := fun _ => some 9 }

/-- Witness for claim C4 at a concrete store, height and peer. -/
theorem respondToPeer_spec_witness :
    respondToPeer storeW 5 "peerA" = [⟨"peerA", .blockResponse 7 9⟩] :=
  (respondToPeer_spec storeW 5 "peerA").1 7 9 rfl rfl

/-- Go error values as `processBlockSyncCh` distinguishes them: the two
context sentinels checked with `errors.Is`, and everything else. -/
inductive ReactorErr where
  | ctxCanceled
  | ctxDeadlineExceeded
  | errMsg (msg : String)
  deriving DecidableEq, Repr

/-- How one run of `handleBlockSyncMessage` ends: normal return, an error
return, or a runtime panic carrying the panic value's text. -/
inductive HandlerOutcome where
  | ok
  | fail (e : ReactorErr)
  | panicked (v : String)
  deriving DecidableEq, Repr

/-- Embedding of `Reactor.handleMessage` (reactor.go lines 305-328): the
deferred `recover` turns a panic inside the dispatched handler into an
ordinary error return; on an unknown channel an error is returned
directly.  The function is total: no outcome escapes as a panic. -/
def handleMessage (chID : Nat) (body : HandlerOutcome) : Option ReactorErr :=
  if chID = BlockSyncChannel then
    match body with
    | .ok => none
    | .fail e => some e
    | .panicked v => some (.errMsg ("panic in processing message: " ++ v))
  else
    some (.errMsg "unknown channel ID for envelope")

/-- A peer error handed to `blockSyncCh.SendError`. -/
structure PeerErrOut where
  nodeID : NodeID
  err : ReactorErr
  deriving DecidableEq, Repr

/-- Result of processing one envelope in `processBlockSyncCh`
(reactor.go lines 335-353): keep iterating (having emitted at most one
peer error) or return from the goroutine. -/
inductive ProcessResult where
  | cont (emitted : Option PeerErrOut)
  | stopped
  deriving DecidableEq, Repr

/-- Embedding of one iteration of `processBlockSyncCh`: `fromPeer` is
`envelope.From`, `body` the outcome of the dispatched handler, and
`sendErrOk` whether `SendError` itself succeeds. -/
def processEnvelopeStep (fromPeer : NodeID) (chID : Nat)
    (body : HandlerOutcome) (sendErrOk : Bool) : ProcessResult :=
  match handleMessage chID body with
  | none => .cont none
  | some err =>
    if err = .ctxCanceled ∨ err = .ctxDeadlineExceeded then .stopped
    else if sendErrOk then .cont (some ⟨fromPeer, err⟩) else .stopped

/-- Claim C7: a panic inside the message handler is recovered inside
`handleMessage` and converted to an ordinary error return, and
`processBlockSyncCh` then emits a peer error naming the envelope's
sender; the panic never escapes the processing goroutine (both embedded
functions are total and return normally on the panic outcome). -/
theorem handleMessage_panic_recovered (p : NodeID) (v : String) :
    handleMessage BlockSyncChannel (.panicked v) =
      some (.errMsg ("panic in processing message: " ++ v)) ∧
    processEnvelopeStep p BlockSyncChannel (.panicked v) true =
      .cont (some ⟨p, .errMsg ("panic in processing message: " ++ v)⟩) := by
  constructor
  · rfl
  · rfl

/-- The fields of `sm.State` the driver reads: the last applied height
and the two validator sets (entering only through their hashes). -/
structure SmState where
  lastBlockHeight : Int
  validators : ValidatorSet
  nextValidators : ValidatorSet
  deriving DecidableEq, Repr

/-- One effect performed by the switch-to-consensus tick of
`poolRoutine` (reactor.go lines 484-522). -/
inductive TickAction where
  | poolStop
  | unsetBlockSync
  | switchToConsensus (st : SmState) (skipWAL : Bool)
  deriving DecidableEq, Repr

/-- Embedding of the `switchToConsensusTicker` case of `poolRoutine`:
given the two pool observations (`IsCaughtUp`, nanoseconds since
`LastAdvance`), whether a consensus reactor is wired, the loop state and
the sync counters, it returns the effects performed and whether the
routine returns (`true`) or continues the loop (`false`). -/
def switchTickStep (caughtUp : Bool) (sinceLastAdvance : Int)
    (hasConsReactor : Bool) (st : SmState) (blocksSynced : Nat)
    (stateSynced : Bool) : List TickAction × Bool :=
  if caughtUp = true ∨ syncTimeout < sinceLastAdvance then
    ([.poolStop, .unsetBlockSync] ++
      (if hasConsReactor then
        [.switchToConsensus st (decide (0 < blocksSynced) || stateSynced)]
      else []),
     true)
  else ([], false)

/-- Claim C6: with a consensus reactor wired, each tick stops the pool,
clears the block-sync flag and invokes the handoff with the current state
exactly when the pool is caught up or no advance happened for more than
`syncTimeout`; otherwise nothing happens and the loop continues.  The
handoff is never invoked (for any wiring) outside that condition. -/
theorem switchTick_spec (c : Bool) (e : Int) (st : SmState)
    (bs : Nat) (ss : Bool) :
    ((c = true ∨ syncTimeout < e) →
      switchTickStep c e true st bs ss =
        ([.poolStop, .unsetBlockSync,
          .switchToConsensus st (decide (0 < bs) || ss)], true)) ∧
    (¬ (c = true ∨ syncTimeout < e) →
      switchTickStep c e true st bs ss = ([], false)) ∧
    (∀ hcr sw, TickAction.switchToConsensus st sw ∈
        (switchTickStep c e hcr st bs ss).1 →
      (c = true ∨ syncTimeout < e)) := by
  refine ⟨fun hcond => ?_, fun hcond => ?_, fun hcr sw hmem => ?_⟩
  · simp [switchTickStep, hcond]
  · simp [switchTickStep, hcond]
  · by_contra hcond
    simp [switchTickStep, hcond] at hmem

/-- The block fields the driver reads (`types.Block` embeds a `Header`,
whose fields are promoted, e.g. `block.Height`). -/
structure Block where
  header : Header
  deriving DecidableEq, Repr

/-- A filled pool entry as returned by `pool.PeekBlock`: block and commit
pointers are non-nil for a response accepted from a peer. -/
structure PoolBlock where
  block : Block
  commit : Commit
  deriving DecidableEq, Repr

/-- `r.lastTrustedBlock`'s pointee (`BlockResponse` of the reactor
package): the inner pointers may be nil when it was rebuilt from store
lookups. -/
structure TrustedBlockResp where
  block : Option Block
  commit : Option Commit
  deriving DecidableEq, Repr

/-- One externally visible call made by the driver's block-processing
branch, in execution order. -/
inductive DriverAction where
  | verifyCall (trustedHeight untrustedHeight : Int)
  | redoRequest (height : Int)
  | sendPeerError (peer : NodeID)
  | popRequest
  | saveBlock (height : Int)
  | applyBlockCall (height : Int)
  deriving DecidableEq, Repr

/-- How the `didProcessCh` branch of `poolRoutine` leaves the loop body:
fall through to the next iteration, `return` from the routine, or panic. -/
inductive StepExit where
  | nextIteration
  | returned
  | panicked (msg : String)
  deriving DecidableEq, Repr

/-- The external collaborators the driver branch calls, as oracles:
structural validation, the block store loads, `MakePartSet` success,
the peer returned by `pool.RedoRequest`, `SendError` success and the
`ApplyBlock` result. -/
structure DriverEnv where
  vb : ValidateBasicFn
  loadBlock : Int → Option Block
  loadBlockCommit : Int → Option Commit
  makePartSetOk : Bool
  redoPeer : NodeID
  sendErrorOk : Bool
  applyResult : Except String SmState

/-- The driver's loop-local mutable data: `r.lastTrustedBlock` and the
loop variable `state`. -/
structure DriverState where
  lastTrustedBlock : Option TrustedBlockResp
  state : SmState
  deriving DecidableEq, Repr

/-- Lines 610-624 of reactor.go: replace the trusted block, pop the
requester, save the block, and apply it (a failure of `ApplyBlock`
panics).  `acts` are the actions already performed by the caller. -/
def driverTail (env : DriverEnv) (newBlock : PoolBlock) (s : DriverState)
    (acts : List DriverAction) : List DriverAction × StepExit × DriverState :=
  let h := newBlock.block.header.height
  let s2 : DriverState :=
    { s with lastTrustedBlock := some ⟨some newBlock.block, some newBlock.commit⟩ }
  let acts2 := acts ++ [.popRequest, .saveBlock h, .applyBlockCall h]
  match env.applyResult with
  | .error _ => (acts2, .panicked "failed to process committed block", s2)
  | .ok st2 => (acts2, .nextIteration, { s2 with state := st2 })

/-- Lines 553-640 of reactor.go, after the trusted-block reload: make the
part set, then either verify against the trusted block (redoing the
request and reporting a peer error on failure — and, as written, falling
through) or, without a usable trusted block, compare the initial
validator hash; then hand off to `driverTail`. -/
def driverBody (env : DriverEnv) (initialState : SmState)
    (newBlock : PoolBlock) (s : DriverState) :
    List DriverAction × StepExit × DriverState :=
  if env.makePartSetOk = false then ([], .returned, s)
  else
    let genesisCheck : List DriverAction × StepExit × DriverState :=
      if initialState.validators.hash ≠ newBlock.block.header.validatorsHash then
        ([], .returned, s)
      else driverTail env newBlock s []
    match s.lastTrustedBlock with
    | some lt =>
      match lt.block with
      | some ltb =>
        if newBlock.block.header.height ≠ ltb.header.height + 1 then
          ([], .panicked "Need last block", s)
        else
          let acts0 := [DriverAction.verifyCall ltb.header.height
            newBlock.block.header.height]
          match verifyAdjacent env.vb ⟨ltb.header, lt.commit⟩
              ⟨newBlock.block.header, some newBlock.commit⟩
              s.state.nextValidators with
          | some _ =>
            let acts := acts0 ++
              [.redoRequest (ltb.header.height + 1), .sendPeerError env.redoPeer]
            if env.sendErrorOk = false then (acts, .returned, s)
            else driverTail env newBlock s acts
          | none => driverTail env newBlock s acts0
      | none => genesisCheck
    | none => genesisCheck

/-- The full `didProcessCh` branch of `poolRoutine` (reactor.go lines
529-641) for one peeked block, including the trusted-block reload of
lines 547-552 with its (unreachable) nil check. -/
def didProcessStep (env : DriverEnv) (initialState : SmState)
    (peeked : Option PoolBlock) (s : DriverState) :
    List DriverAction × StepExit × DriverState :=
  match peeked with
  | none => ([], .nextIteration, s)
  | some newBlock =>
    if s.lastTrustedBlock = none ∧ initialState.lastBlockHeight ≠ 0 then
      let lt : Option TrustedBlockResp :=
        some { block := env.loadBlock initialState.lastBlockHeight
               commit := env.loadBlockCommit initialState.lastBlockHeight }
      if lt = none then ([], .panicked "Failed to load last trusted block", s)
      else driverBody env initialState newBlock { s with lastTrustedBlock := lt }
    else driverBody env initialState newBlock s

/-- The action list of `driverTail` is its caller's actions followed by
pop, save and apply, whether or not `ApplyBlock` succeeds. -/
theorem driverTail_acts (env : DriverEnv) (nb : PoolBlock) (s : DriverState)
    (acts : List DriverAction) :
    (driverTail env nb s acts).1 = acts ++
      [.popRequest, .saveBlock nb.block.header.height,
       .applyBlockCall nb.block.header.height] := by
  unfold driverTail
  rcases env.applyResult with e | st2 <;> simp

/-- When no usable trusted block exists (`lastTrustedBlock` nil, or its
inner block nil), `driverBody` runs the genesis validator-hash
comparison. -/
theorem driverBody_genesis (env : DriverEnv) (ist : SmState)
    (nb : PoolBlock) (s : DriverState)
    (hno : ∀ lt, s.lastTrustedBlock = some lt → lt.block = none)
    (hmps : env.makePartSetOk = true) :
    driverBody env ist nb s =
      (if ist.validators.hash ≠ nb.block.header.validatorsHash then
        ([], .returned, s)
      else driverTail env nb s []) := by
  unfold driverBody
  rcases hs : s.lastTrustedBlock with _ | lt
  · simp [hmps]
  · have hb := hno lt hs
    simp [hmps, hb]

/-- The only exits of `driverBody`: return, next iteration, or one of its
two panic messages. -/
theorem driverBody_exit_cases (env : DriverEnv) (ist : SmState)
    (nb : PoolBlock) (s : DriverState) :
    (driverBody env ist nb s).2.1 = .returned ∨
    (driverBody env ist nb s).2.1 = .nextIteration ∨
    (driverBody env ist nb s).2.1 = .panicked "Need last block" ∨
    (driverBody env ist nb s).2.1 = .panicked "failed to process committed block" := by
  rcases hs : s.lastTrustedBlock with _ | lt
  · unfold driverBody driverTail
    rcases ha : env.applyResult with e | st2 <;>
      simp only [hs] <;> split_ifs <;> simp
  · rcases hb : lt.block with _ | ltb
    · unfold driverBody driverTail
      rcases ha : env.applyResult with e | st2 <;>
        simp only [hs, hb] <;> split_ifs <;> simp
    · unfold driverBody driverTail
      rcases ha : env.applyResult with e | st2 <;>
        rcases hv : verifyAdjacent env.vb ⟨ltb.header, lt.commit⟩
          ⟨nb.block.header, some nb.commit⟩ s.state.nextValidators with _ | e2 <;>
            simp only [hs, hb, hv] <;> split_ifs <;> simp [ha, hv]

/-- The peeked block of the concrete verification-failure scenario:
height 2, a later time, but a validator hash matching neither the
supplied next validators nor the trusted header's next-validators
hash. -/
def hdrN : Header :=
  { height := 2, time := 200, chainID := "test-chain"
    validatorsHash := [5], nextValidatorsHash := [6] }

/-- The trusted block of the concrete scenarios (header `hdrT`). -/
def blkT : Block := ⟨hdrT⟩

/-- The peeked block of the concrete scenarios (header `hdrN`). -/
def blkN : Block := ⟨hdrN⟩

/-- The peeked pool entry: block `blkN` with its commit. -/
def pbN : PoolBlock := ⟨blkN, ⟨2⟩⟩

/-- The loop state before the step: last height 1, next validators hash
`[2]` (matching `hdrT.nextValidatorsHash`). -/
def smC1 : SmState :=
  { lastBlockHeight := 1, validators := ⟨[9]⟩, nextValidators := ⟨[2]⟩ }

/-- The state `ApplyBlock` would return in the scenario. -/
def smC1After : SmState :=
  { lastBlockHeight := 2, validators := ⟨[2]⟩, nextValidators := ⟨[5]⟩ }

/-- Oracles of the concrete scenario: all external calls succeed, the
pool reports peer `peerA` for the redone request. -/
def envC1 : DriverEnv :=
  { vb := vbOk
    loadBlock := fun _ => none
    loadBlockCommit := fun _ => none
    makePartSetOk := true
    redoPeer := "peerA"
    sendErrorOk := true
    applyResult := .ok smC1After }

/-- Driver state holding the trusted block at height 1. -/
def dsC1 : DriverState :=
  { lastTrustedBlock := some ⟨some blkT, some ⟨1⟩⟩, state := smC1 }

/-- Claim C1, behaviour of the code at the failing input: the peeked
block at height 2 fails adjacent verification (validator hash `[5]`
does not match the supplied set `[2]`), the driver calls
`pool.RedoRequest(2)` and reports a peer error — and then, because the
error branch does not restart the loop, still pops the requester, saves
the unverified block, invokes `ApplyBlock` on it, and replaces the
trusted block, continuing with the next height. -/
theorem driver_verifyFail_falls_through :
    didProcessStep envC1 smC1 (some pbN) dsC1 =
      ([DriverAction.verifyCall 1 2, .redoRequest 2, .sendPeerError "peerA",
        .popRequest, .saveBlock 2, .applyBlockCall 2],
       StepExit.nextIteration,
       { lastTrustedBlock := some ⟨some blkN, some ⟨2⟩⟩, state := smC1After }) := by
  rfl

/-- Claim C5: with no trusted block and an initial state at height 0, the
driver requires the initial validator-set hash to equal the peeked
block's validator hash; on mismatch it returns from the routine with no
pop, save or apply and unchanged state, and on match it processes the
block normally (pop, save, apply) without ever calling the adjacent
verifier. -/
theorem driver_genesis_spec (env : DriverEnv) (ist : SmState)
    (nb : PoolBlock) (s : DriverState)
    (hlt : s.lastTrustedBlock = none) (h0 : ist.lastBlockHeight = 0)
    (hmps : env.makePartSetOk = true) :
    (ist.validators.hash ≠ nb.block.header.validatorsHash →
      didProcessStep env ist (some nb) s = ([], .returned, s)) ∧
    (ist.validators.hash = nb.block.header.validatorsHash →
      (didProcessStep env ist (some nb) s).1 =
        [.popRequest, .saveBlock nb.block.header.height,
         .applyBlockCall nb.block.header.height] ∧
      (didProcessStep env ist (some nb) s).2.2.lastTrustedBlock =
        some ⟨some nb.block, some nb.commit⟩) ∧
    (∀ tH uH, DriverAction.verifyCall tH uH ∉ (didProcessStep env ist (some nb) s).1) := by
  have hred : didProcessStep env ist (some nb) s = driverBody env ist nb s := by
    simp [didProcessStep, h0]
  have hgen := driverBody_genesis env ist nb s (by simp [hlt]) hmps
  refine ⟨fun hne => ?_, fun heq => ⟨?_, ?_⟩, fun tH uH => ?_⟩
  · rw [hred, hgen, if_pos hne]
  · rw [hred, hgen, if_neg (by simp [heq]), driverTail_acts]
    simp
  · rw [hred, hgen, if_neg (by simp [heq])]
    unfold driverTail
    rcases env.applyResult with e | st2 <;> simp [hlt]
  · rw [hred, hgen]
    by_cases heq : ist.validators.hash = nb.block.header.validatorsHash
    · rw [if_neg (by simp [heq]), driverTail_acts]
      simp
    · rw [if_pos heq]
      simp

/-- Initial state for the genesis witnesses: height 0, validator hash
`[9]` (different from `pbN`'s validator hash `[5]`). -/
def istW : SmState :=
  { lastBlockHeight := 0, validators := ⟨[9]⟩, nextValidators := ⟨[2]⟩ }

/-- Driver state with no trusted block yet. -/
def dsW : DriverState := { lastTrustedBlock := none, state := istW }

/-- Witness for claim C5: at the concrete genesis scenario with
mismatching hashes the step returns with nothing done. -/
theorem driver_genesis_spec_witness :
    didProcessStep envC1 istW (some pbN) dsW = ([], .returned, dsW) :=
  (driver_genesis_spec envC1 istW pbN dsW rfl rfl rfl).1 (by decide)

/-- Claim C10: when `lastTrustedBlock` is nil and the initial height is
non-zero, the freshly taken address makes the immediately following nil
check false, so the `Failed to load last trusted block` panic cannot
fire; if the store has no block at that height the step continues with a
nil inner block and takes the genesis validator-hash branch (the
adjacent verifier is never called, and a hash mismatch returns cleanly
with the rebuilt trusted-block field). -/
theorem lastTrusted_reload_no_panic (env : DriverEnv) (ist : SmState)
    (nb : PoolBlock) (s : DriverState)
    (hlt : s.lastTrustedBlock = none) (h0 : ist.lastBlockHeight ≠ 0) :
    (didProcessStep env ist (some nb) s).2.1 ≠
      StepExit.panicked "Failed to load last trusted block" ∧
    (env.loadBlock ist.lastBlockHeight = none →
      (∀ tH uH, DriverAction.verifyCall tH uH ∉
        (didProcessStep env ist (some nb) s).1) ∧
      (env.makePartSetOk = true →
        ist.validators.hash ≠ nb.block.header.validatorsHash →
        didProcessStep env ist (some nb) s =
          ([], .returned,
           { s with
             lastTrustedBlock := some ⟨none, env.loadBlockCommit ist.lastBlockHeight⟩ }))) := by
  have hred : didProcessStep env ist (some nb) s =
      driverBody env ist nb
        { s with
          lastTrustedBlock := some ⟨env.loadBlock ist.lastBlockHeight, env.loadBlockCommit ist.lastBlockHeight⟩ } := by
    simp [didProcessStep, hlt, h0]
  constructor
  · rw [hred]
    rcases driverBody_exit_cases env ist nb
        { s with
          lastTrustedBlock := some ⟨env.loadBlock ist.lastBlockHeight, env.loadBlockCommit ist.lastBlockHeight⟩ } with
      h | h | h | h <;> simp [h]
  · intro hb
    rw [hb] at hred
    constructor
    · intro tH uH
      rw [hred]
      by_cases hmps : env.makePartSetOk = true
      · have hgen := driverBody_genesis env ist nb
          { s with
            lastTrustedBlock := some ⟨none, env.loadBlockCommit ist.lastBlockHeight⟩ }
          (by intro lt hlt2; cases hlt2; rfl) hmps
        rw [hgen]
        by_cases heq : ist.validators.hash = nb.block.header.validatorsHash
        · rw [if_neg (by simp [heq]), driverTail_acts]
          simp
        · rw [if_pos heq]
          simp
      · have hf : env.makePartSetOk = false := by
          cases h : env.makePartSetOk with
          | false => rfl
          | true => exact absurd h hmps
        unfold driverBody
        simp [hf]
    · intro hmps hne
      rw [hred]
      have hgen := driverBody_genesis env ist nb
        { s with
          lastTrustedBlock := some ⟨none, env.loadBlockCommit ist.lastBlockHeight⟩ }
        (by intro lt hlt2; cases hlt2; rfl) hmps
      rw [hgen, if_pos hne]

/-- Driver state (no trusted block) paired with the height-1 initial
state for the C10 witness. -/
def dsW2 : DriverState := { lastTrustedBlock := none, state := smC1 }

/-- Witness for claim C10 at a concrete scenario: initial height 1,
store empty, hashes mismatching. -/
theorem lastTrusted_reload_no_panic_witness :
    didProcessStep envC1 smC1 (some pbN) dsW2 =
      ([], .returned,
       { dsW2 with lastTrustedBlock := some ⟨none, none⟩ }) :=
  ((lastTrusted_reload_no_panic envC1 smC1 pbN dsW2 rfl (by decide)).2
    rfl).2 rfl (by decide)

/-- Go `math/bits.Len64`: the number of bits needed to represent `x`
(0 for 0). -/
def len64 (x : Nat) : Nat := if x = 0 then 0 else Nat.log2 x + 1

/-- `sovTypes` from types.pb.go: the byte length of the varint encoding
of `x`. -/
def sovTypes (x : Nat) : Nat := (len64 (x ||| 1) + 6) / 7

/-- The byte sequence `encodeVarintTypes` places into the buffer for
`v`: low base-128 digit first, continuation bit `0x80` on every digit
but the last. -/
def encodeVarint (v : Nat) : Bytes :=
  if v < 128 then [v]
  else (v &&& 0x7f ||| 0x80) :: encodeVarint (v >>> 7)
termination_by v
decreasing_by
  simp only [Nat.shiftRight_eq_div_pow]
  omega

/-- A natural number is never below its bitwise or with anything. -/
theorem left_le_or (x y : Nat) : x ≤ x ||| y :=
  Nat.le_of_testBit (fun i h => by simp [Nat.testBit_or, h])

/-- Forcing the lowest bit does not change the binary logarithm. -/
theorem log_or_one (v : Nat) : Nat.log 2 (v ||| 1) = Nat.log 2 v := by
  rcases Nat.eq_zero_or_pos v with h0 | hpos
  · simp [h0]
  · have hne : v ||| 1 ≠ 0 := by
      have hm : (v ||| 1) % 2 = 1 := by
        simp [Nat.or_mod_two_eq_one]
      omega
    apply Nat.le_antisymm
    · have h1 : v ||| 1 < 2 ^ (Nat.log 2 v + 1) :=
        Nat.or_lt_two_pow (Nat.lt_pow_succ_log_self (by norm_num) v)
          (by have := Nat.one_le_two_pow (n := Nat.log 2 v + 1); omega)
    -- the or stays below the next power of two, so its log is bounded
      have := Nat.log_lt_of_lt_pow hne h1
      omega
    · exact Nat.log_mono_right (left_le_or v 1)

/-- Dividing by 128 lowers the binary logarithm by exactly 7. -/
theorem log_div_128 (v : Nat) : Nat.log 2 (v / 128) = Nat.log 2 v - 7 := by
  have h : v / 128 = v / 2 / 2 / 2 / 2 / 2 / 2 / 2 := by omega
  rw [h, Nat.log_div_base, Nat.log_div_base, Nat.log_div_base, Nat.log_div_base,
    Nat.log_div_base, Nat.log_div_base, Nat.log_div_base]
  omega

/-- `sovTypes` in terms of the binary logarithm. -/
theorem sovTypes_eq (x : Nat) : sovTypes x = Nat.log 2 x / 7 + 1 := by
  unfold sovTypes len64
  have hne : x ||| 1 ≠ 0 := by
    have hm : (x ||| 1) % 2 = 1 := by simp [Nat.or_mod_two_eq_one]
    omega
  rw [if_neg hne, Nat.log2_eq_log_two, log_or_one]
  omega

/-- The encoder emits exactly `sovTypes v` bytes, the count the
generated `Size` functions budget for. -/
theorem length_encodeVarint (v : Nat) : (encodeVarint v).length = sovTypes v := by
  induction v using Nat.strong_induction_on with
  | _ v ih =>
    unfold encodeVarint
    split
    · next hlt =>
      rw [sovTypes_eq]
      have : Nat.log 2 v < 7 := by
        rcases Nat.eq_zero_or_pos v with h0 | hpos
        · simp [h0]
        · exact Nat.log_lt_of_lt_pow (by omega) (by norm_num at hlt ⊢; omega)
      simp
      omega
    · next hge =>
      have hlt : v >>> 7 < v := by
        simp only [Nat.shiftRight_eq_div_pow]
        omega
      have hv : 128 ≤ v := by omega
      have hlog : 7 ≤ Nat.log 2 v := by
        have h2 : (2 : Nat) ^ 7 ≤ v := by norm_num; omega
        exact (Nat.pow_le_iff_le_log (by norm_num) (by omega)).mp h2
      rw [List.length_cons, ih _ hlt, sovTypes_eq, sovTypes_eq]
      rw [Nat.shiftRight_eq_div_pow]
      show Nat.log 2 (v / 128) / 7 + 1 + 1 = Nat.log 2 v / 7 + 1
      rw [log_div_128]
      omega

/-- The varint encoding is never empty. -/
theorem encodeVarint_ne_nil (v : Nat) : encodeVarint v ≠ [] := by
  unfold encodeVarint
  split <;> simp

/-- Errors of the generated unmarshalling code: the `io` sentinel, the
three package-level sentinels, the `fmt.Errorf` cases, and a fuel marker
for the embedding of the `for iNdEx < l` loops (each iteration consumes
at least one byte, so running such a loop with fuel `l + 1` never
exhausts it). -/
inductive PbErr where
  | unexpectedEOF
  | intOverflow
  | invalidLength
  | unexpectedEndOfGroup
  | protoErr (msg : String)
  | fuelExhausted
  deriving DecidableEq, Repr

/-- The inline varint-reading loops of the generated `Unmarshal`
functions (`for shift := uint(0); ; shift += 7`): reads continuation
bytes from `data`, accumulating into a `uint64`, and returns the value
with the remaining bytes. -/
def readVarint (data : Bytes) (shift : Nat) (acc : Nat) :
    Except PbErr (Nat × Bytes) :=
  if shift ≥ 64 then .error .intOverflow
  else
    match data with
    | [] => .error .unexpectedEOF
    | b :: rest =>
      let acc2 := (acc ||| (b &&& 0x7F) <<< shift) % 2 ^ 64
      if b < 0x80 then .ok (acc2, rest)
      else readVarint rest (shift + 7) acc2

/-- Go's `uint64(h)` for an `int64` value modelled as `Int`. -/
def toUint64 (h : Int) : Nat := (h % (2 ^ 64 : Int)).toNat

/-- Go's `int64(n)` for a `uint64` value: two's-complement
reinterpretation. -/
def ofUint64 (n : Nat) : Int :=
  if n < 2 ^ 63 then (n : Int) else (n : Int) - 2 ^ 64

/-- Go's `int32(n)` conversion from a wider unsigned value. -/
def ofUint32 (n : Nat) : Int :=
  if n % 2 ^ 32 < 2 ^ 31 then ((n % 2 ^ 32 : Nat) : Int)
  else ((n % 2 ^ 32 : Nat) : Int) - 2 ^ 32

/-- Round trip of the `int64` casts on the `int64` range. -/
theorem ofUint64_toUint64 (h : Int) (hlo : -(2 ^ 63) ≤ h) (hhi : h < 2 ^ 63) :
    ofUint64 (toUint64 h) = h := by
  unfold ofUint64 toUint64
  split <;> omega

/-- The `uint64` cast lands below `2 ^ 64`. -/
theorem toUint64_lt (h : Int) : toUint64 h < 2 ^ 64 := by
  unfold toUint64
  omega

/-- Bitwise or against a shifted value is addition when the low part
fits below the shift. -/
theorem or_shiftLeft_eq_add (acc d shift : Nat) (hacc : acc < 2 ^ shift) :
    acc ||| d <<< shift = acc + d * 2 ^ shift := by
  rw [Nat.shiftLeft_eq, Nat.lor_comm, Nat.mul_comm,
    ← Nat.mul_add_lt_is_or hacc]
  omega

/-- Main varint round trip, generalized over the running accumulator:
reading from the encoder's output continues the accumulation exactly. -/
theorem readVarint_append (v : Nat) (rest : Bytes) (shift acc : Nat)
    (hshift : shift < 64) (hacc : acc < 2 ^ shift)
    (hbound : acc + v * 2 ^ shift < 2 ^ 64) :
    readVarint (encodeVarint v ++ rest) shift acc =
      .ok (acc + v * 2 ^ shift, rest) := by
  induction v using Nat.strong_induction_on generalizing shift acc with
  | _ v ih =>
    unfold encodeVarint
    split
    · next hlt =>
      unfold readVarint
      rw [if_neg (by omega)]
      have hand : v &&& 0x7F = v := by
        have : (0x7F : Nat) = 2 ^ 7 - 1 := by norm_num
        rw [this, Nat.and_pow_two_sub_one_eq_mod, Nat.mod_eq_of_lt hlt]
      simp only [List.cons_append, List.nil_append, hand,
        or_shiftLeft_eq_add acc v shift hacc, Nat.mod_eq_of_lt hbound]
      rw [if_pos (by omega)]
    · next hge =>
      have h128 : 128 ≤ v := by omega
      -- the emitted continuation byte is the low seven bits plus 0x80
      have hbyte : v &&& 0x7f ||| 0x80 = v % 128 + 128 := by
        have h7f : (0x7f : Nat) = 2 ^ 7 - 1 := by norm_num
        have hmod : v &&& 0x7f = v % 128 := by
          rw [h7f, Nat.and_pow_two_sub_one_eq_mod]
        rw [hmod, Nat.lor_comm]
        have h80 : (0x80 : Nat) = 2 ^ 7 * 1 := by norm_num
        rw [h80, ← Nat.mul_add_lt_is_or (by omega)]
        omega
      unfold readVarint
      rw [if_neg (by omega)]
      simp only [List.cons_append, hbyte]
      have handb : (v % 128 + 128) &&& 0x7F = v % 128 := by
        have h7f : (0x7F : Nat) = 2 ^ 7 - 1 := by norm_num
        rw [h7f, Nat.and_pow_two_sub_one_eq_mod]
        omega
      rw [handb]
      have hacc2 : acc ||| (v % 128) <<< shift = acc + v % 128 * 2 ^ shift :=
        or_shiftLeft_eq_add acc (v % 128) shift hacc
      have hmodlt : acc + v % 128 * 2 ^ shift < 2 ^ 64 := by
        have : v % 128 * 2 ^ shift ≤ v * 2 ^ shift :=
          Nat.mul_le_mul_right _ (Nat.mod_le v 128)
        omega
      rw [hacc2, Nat.mod_eq_of_lt hmodlt, if_neg (by omega)]
      -- fuel for the recursive step: the tail encodes v / 128
      have hsh7 : shift + 7 < 64 := by
        have hpow : 2 ^ (shift + 7) ≤ v * 2 ^ shift := by
          rw [Nat.pow_add]
          calc 2 ^ shift * 2 ^ 7 = 2 ^ 7 * 2 ^ shift := by ring
          _ ≤ v * 2 ^ shift := Nat.mul_le_mul_right _ (by norm_num; omega)
        have hlt64 : 2 ^ (shift + 7) < 2 ^ 64 := by omega
        exact (Nat.pow_lt_pow_iff_right (by norm_num)).mp hlt64
      have hacc2lt : acc + v % 128 * 2 ^ shift < 2 ^ (shift + 7) := by
        have hm : v % 128 ≤ 127 := by omega
        have : v % 128 * 2 ^ shift ≤ 127 * 2 ^ shift :=
          Nat.mul_le_mul_right _ hm
        have hp : 2 ^ (shift + 7) = 128 * 2 ^ shift := by
          rw [Nat.pow_add]; ring
        omega
      have hrw : v >>> 7 = v / 128 := by
        rw [Nat.shiftRight_eq_div_pow]
      have hbound2 : acc + v % 128 * 2 ^ shift + v / 128 * 2 ^ (shift + 7) =
          acc + v * 2 ^ shift := by
        have hp : 2 ^ (shift + 7) = 2 ^ shift * 128 := by
          rw [Nat.pow_add]
        rw [hp]
        have : v % 128 * 2 ^ shift + v / 128 * (2 ^ shift * 128) =
            (v % 128 + 128 * (v / 128)) * 2 ^ shift := by ring
        rw [Nat.add_assoc, this, Nat.mod_add_div]
      have := ih (v >>> 7) (by rw [hrw]; omega) (shift + 7)
        (acc + v % 128 * 2 ^ shift) hsh7 hacc2lt
        (by rw [hrw, hbound2]; exact hbound)
      rw [this, hrw, hbound2]

/-- Varint round trip at the top: decoding the fresh encoding of any
`uint64` value recovers it and leaves the tail untouched. -/
theorem readVarint_encode (v : Nat) (rest : Bytes) (hv : v < 2 ^ 64) :
    readVarint (encodeVarint v ++ rest) 0 0 = .ok (v, rest) := by
  have := readVarint_append v rest 0 0 (by norm_num) (by norm_num)
    (by simpa using hv)
  simpa using this

/-- Positional variant of the varint read used inside `skipTypes`:
returns the value and the index one past the last byte consumed. -/
def readVarintAt (data : Bytes) (iNdEx shift acc : Nat) :
    Except PbErr (Nat × Nat) :=
  if shift ≥ 64 then .error .intOverflow
  else if h : iNdEx < data.length then
    let b := data.get ⟨iNdEx, h⟩
    let acc2 := (acc ||| (b &&& 0x7F) <<< shift) % 2 ^ 64
    if b < 0x80 then .ok (acc2, iNdEx + 1)
    else readVarintAt data (iNdEx + 1) (shift + 7) acc2
  else .error .unexpectedEOF
termination_by data.length - iNdEx
decreasing_by omega

/-- The value-discarding varint skip of `skipTypes` wire type 0
(`for ... iNdEx++; if dAtA[iNdEx-1] < 0x80 break`). -/
def skipVarintAt (data : Bytes) (iNdEx shift : Nat) : Except PbErr Nat :=
  if shift ≥ 64 then .error .intOverflow
  else if h : iNdEx < data.length then
    if data.get ⟨iNdEx, h⟩ < 0x80 then .ok (iNdEx + 1)
    else skipVarintAt data (iNdEx + 1) (shift + 7)
  else .error .unexpectedEOF
termination_by data.length - iNdEx
decreasing_by omega

/-- The body of `skipTypes` (types.pb.go lines 877-954): walk one field
(or a whole group) and return how many bytes it spans.  Each loop
iteration consumes at least the wire varint's byte, so fuel
`data.length + 1` can never run out; the `iNdEx < 0` overflow check of
the signed Go index is vacuous for `Nat` indices. -/
def skipLoop (fuel : Nat) (data : Bytes) (iNdEx depth : Nat) :
    Except PbErr Nat :=
  match fuel with
  | 0 => .error .fuelExhausted
  | fuel + 1 =>
    if iNdEx < data.length then
      match readVarintAt data iNdEx 0 0 with
      | .error e => .error e
      | .ok (wire, i1) =>
        let wireType := wire &&& 7
        let after : Nat → Nat → Except PbErr Nat := fun i2 d =>
          if d = 0 then .ok i2 else skipLoop fuel data i2 d
        match wireType with
        | 0 =>
          match skipVarintAt data i1 0 with
          | .error e => .error e
          | .ok i2 => after i2 depth
        | 1 => after (i1 + 8) depth
        | 2 =>
          match readVarintAt data i1 0 0 with
          | .error e => .error e
          | .ok (lengthVal, i2) =>
            if ofUint64 lengthVal < 0 then .error .invalidLength
            else after (i2 + (ofUint64 lengthVal).toNat) depth
        | 3 => after i1 (depth + 1)
        | 4 =>
          if depth = 0 then .error .unexpectedEndOfGroup
          else after i1 (depth - 1)
        | 5 => after (i1 + 4) depth
        | _ => .error (.protoErr "illegal wireType")
    else .error .unexpectedEOF

/-- `skipTypes` of types.pb.go: the number of bytes the next field (with
its tag) occupies, or an error. -/
def skipTypes (data : Bytes) : Except PbErr Nat :=
  skipLoop (data.length + 1) data 0 0

/-- The recurring length-delimited stanza of every generated field case:
read the `msglen` varint (accumulated into a signed int), reject a
negative length, reject a window past the end of the buffer, and return
the sub-slice together with the remainder. -/
def readLenDelim (rest : Bytes) : Except PbErr (Bytes × Bytes) :=
  match readVarint rest 0 0 with
  | .error e => .error e
  | .ok (v, rest2) =>
    let msglen := ofUint64 v
    if msglen < 0 then .error .invalidLength
    else if msglen.toNat > rest2.length then .error .unexpectedEOF
    else .ok (rest2.take msglen.toNat, rest2.drop msglen.toNat)

/-- The shared skeleton of every generated `Unmarshal` function
(`for iNdEx < l`): read the wire varint, reject end-group wire types and
non-positive field numbers (`fieldNum := int32(wire >> 3)`), and
dispatch to the message's field handler, which takes the bytes after the
tag and returns the updated message with the remaining bytes (the
`default:` arm of each handler performs the `skipTypes` dance).  Fuel
`data.length + 1` suffices because every iteration consumes the tag
byte. -/
def pbUnmarshalLoop (handle : Int → Nat → Bytes → α → Except PbErr (α × Bytes))
    (fuel : Nat) (m : α) (data : Bytes) : Except PbErr α :=
  match fuel with
  | 0 => .error .fuelExhausted
  | fuel + 1 =>
    match data with
    | [] => .ok m
    | _ :: _ =>
      match readVarint data 0 0 with
      | .error e => .error e
      | .ok (wire, rest) =>
        let fieldNum : Int := ofUint32 (wire >>> 3)
        let wireType : Nat := wire &&& 7
        if wireType = 4 then
          .error (.protoErr "wiretype end group for non-group")
        else if fieldNum ≤ 0 then .error (.protoErr "illegal tag")
        else
          match handle fieldNum wireType rest m with
          | .error e => .error e
          | .ok (m2, rest2) => pbUnmarshalLoop handle fuel m2 rest2

/-- The `default:` arm shared by the generated field switches: skip the
unknown field, with the generated bounds checks. -/
def skipField (rest : Bytes) (m : α) : Except PbErr (α × Bytes) :=
  match skipTypes rest with
  | .error e => .error e
  | .ok skippy =>
    if skippy > rest.length then .error .unexpectedEOF
    else .ok (m, rest.drop skippy)

/-- Reading the length-delimited window back from an encoded prefix. -/
theorem readLenDelim_encode (payload rest : Bytes)
    (hlen : payload.length < 2 ^ 63) :
    readLenDelim (encodeVarint payload.length ++ (payload ++ rest)) =
      .ok (payload, rest) := by
  unfold readLenDelim
  rw [readVarint_encode payload.length (payload ++ rest) (by omega)]
  have hof : ofUint64 payload.length = (payload.length : Int) := by
    unfold ofUint64
    rw [if_pos (by exact_mod_cast hlen)]
  simp only [hof]
  rw [if_neg (by omega), if_neg (by simp)]
  simp [List.take_left, List.drop_left]

/-- Exhausted input returns the accumulated message. -/
theorem pbUnmarshalLoop_nil
    (handle : Int → Nat → Bytes → α → Except PbErr (α × Bytes))
    (fuel : Nat) (m : α) :
    pbUnmarshalLoop handle (fuel + 1) m [] = .ok m := rfl

/-- A single tag byte below 128 reads back as itself. -/
theorem readVarint_byte (t : Nat) (rest : Bytes) (ht : t < 128) :
    readVarint (t :: rest) 0 0 = .ok (t, rest) := by
  have h := readVarint_encode t rest (by omega)
  rwa [show encodeVarint t = [t] by unfold encodeVarint; rw [if_pos ht]] at h

/-- One iteration of the unmarshal skeleton on a well-formed single-byte
tag: consume the tag, run the field handler, keep looping on what it
leaves. -/
theorem pbUnmarshalLoop_step
    (handle : Int → Nat → Bytes → α → Except PbErr (α × Bytes))
    (fuel : Nat) (m m2 : α) (t : Nat) (rest rest2 : Bytes)
    (ht : t < 128) (ht4 : t &&& 7 ≠ 4) (htpos : ¬ ofUint32 (t >>> 3) ≤ 0)
    (hh : handle (ofUint32 (t >>> 3)) (t &&& 7) rest m = .ok (m2, rest2)) :
    pbUnmarshalLoop handle (fuel + 1) m (t :: rest) =
      pbUnmarshalLoop handle fuel m2 rest2 := by
  have hrv := readVarint_byte t rest ht
  simp only [pbUnmarshalLoop, hrv]
  rw [if_neg ht4, if_neg htpos, hh]

/-- Modelled from the spec: wire message `BlockRequest{height: int64}`
(§6, tag-1 payload).  The v1 generated codec it names is not among the
provided sources; the definitions follow the spec's field table and the
standard gogoproto varint-int64 pattern of the repository's other
generated files. -/
structure BlockRequestPb where
  height : Int
  deriving DecidableEq, Repr

/-- Modelled from the spec: `NoBlockResponse{height: int64}`. -/
structure NoBlockResponsePb where
  height : Int
  deriving DecidableEq, Repr

/-- Modelled from the spec: `StatusRequest{}` (empty message). -/
structure StatusRequestPb where
  deriving DecidableEq, Repr

/-- Modelled from the spec: `StatusResponse{height, base: int64}`. -/
structure StatusResponsePb where
  height : Int
  base : Int
  deriving DecidableEq, Repr

/-- Size of the spec-modelled `BlockRequest` (field 1 varint, omitted
when zero). -/
def blockRequestSize (m : BlockRequestPb) : Nat :=
  if m.height ≠ 0 then 1 + sovTypes (toUint64 m.height) else 0

/-- Marshalled bytes of the spec-modelled `BlockRequest`. -/
def blockRequestMarshal (m : BlockRequestPb) : Bytes :=
  if m.height ≠ 0 then 0x8 :: encodeVarint (toUint64 m.height) else []

/-- Field switch of the spec-modelled `BlockRequest` unmarshal. -/
def blockRequestHandleField (fieldNum : Int) (wireType : Nat)
    (rest : Bytes) (m : BlockRequestPb) :
    Except PbErr (BlockRequestPb × Bytes) :=
  if fieldNum = 1 then
    if wireType ≠ 0 then .error (.protoErr "wrong wireType for field Height")
    else
      match readVarint rest 0 0 with
      | .error e => .error e
      | .ok (v, rest2) => .ok ({ m with height := ofUint64 v }, rest2)
  else skipField rest m

/-- Unmarshal of the spec-modelled `BlockRequest`. -/
def blockRequestUnmarshal (data : Bytes) : Except PbErr BlockRequestPb :=
  pbUnmarshalLoop blockRequestHandleField (data.length + 1) { height := 0 } data

/-- Size of the spec-modelled `NoBlockResponse`. -/
def noBlockResponseSize (m : NoBlockResponsePb) : Nat :=
  if m.height ≠ 0 then 1 + sovTypes (toUint64 m.height) else 0

/-- Marshalled bytes of the spec-modelled `NoBlockResponse`. -/
def noBlockResponseMarshal (m : NoBlockResponsePb) : Bytes :=
  if m.height ≠ 0 then 0x8 :: encodeVarint (toUint64 m.height) else []

/-- Field switch of the spec-modelled `NoBlockResponse` unmarshal. -/
def noBlockResponseHandleField (fieldNum : Int) (wireType : Nat)
    (rest : Bytes) (m : NoBlockResponsePb) :
    Except PbErr (NoBlockResponsePb × Bytes) :=
  if fieldNum = 1 then
    if wireType ≠ 0 then .error (.protoErr "wrong wireType for field Height")
    else
      match readVarint rest 0 0 with
      | .error e => .error e
      | .ok (v, rest2) => .ok ({ m with height := ofUint64 v }, rest2)
  else skipField rest m

/-- Unmarshal of the spec-modelled `NoBlockResponse`. -/
def noBlockResponseUnmarshal (data : Bytes) : Except PbErr NoBlockResponsePb :=
  pbUnmarshalLoop noBlockResponseHandleField (data.length + 1)
    { height := 0 } data

/-- Size of the spec-modelled `StatusRequest` (no fields). -/
def statusRequestSize (_ : StatusRequestPb) : Nat := 0

/-- Marshalled bytes of the spec-modelled `StatusRequest`. -/
def statusRequestMarshal (_ : StatusRequestPb) : Bytes := []

/-- Field switch of the spec-modelled `StatusRequest` unmarshal: every
field is unknown. -/
def statusRequestHandleField (_ : Int) (_ : Nat) (rest : Bytes)
    (m : StatusRequestPb) : Except PbErr (StatusRequestPb × Bytes) :=
  skipField rest m

/-- Unmarshal of the spec-modelled `StatusRequest`. -/
def statusRequestUnmarshal (data : Bytes) : Except PbErr StatusRequestPb :=
  pbUnmarshalLoop statusRequestHandleField (data.length + 1) {} data

/-- Size of the spec-modelled `StatusResponse` (fields 1 and 2,
varints, omitted when zero). -/
def statusResponseSize (m : StatusResponsePb) : Nat :=
  (if m.height ≠ 0 then 1 + sovTypes (toUint64 m.height) else 0) +
  (if m.base ≠ 0 then 1 + sovTypes (toUint64 m.base) else 0)

/-- Marshalled bytes of the spec-modelled `StatusResponse` (the sized
buffer is filled from the end, so the height field precedes the base
field on the wire). -/
def statusResponseMarshal (m : StatusResponsePb) : Bytes :=
  (if m.height ≠ 0 then 0x8 :: encodeVarint (toUint64 m.height) else []) ++
  (if m.base ≠ 0 then 0x10 :: encodeVarint (toUint64 m.base) else [])

/-- Field switch of the spec-modelled `StatusResponse` unmarshal. -/
def statusResponseHandleField (fieldNum : Int) (wireType : Nat)
    (rest : Bytes) (m : StatusResponsePb) :
    Except PbErr (StatusResponsePb × Bytes) :=
  if fieldNum = 1 then
    if wireType ≠ 0 then .error (.protoErr "wrong wireType for field Height")
    else
      match readVarint rest 0 0 with
      | .error e => .error e
      | .ok (v, rest2) => .ok ({ m with height := ofUint64 v }, rest2)
  else if fieldNum = 2 then
    if wireType ≠ 0 then .error (.protoErr "wrong wireType for field Base")
    else
      match readVarint rest 0 0 with
      | .error e => .error e
      | .ok (v, rest2) => .ok ({ m with base := ofUint64 v }, rest2)
  else skipField rest m

/-- Unmarshal of the spec-modelled `StatusResponse`. -/
def statusResponseUnmarshal (data : Bytes) : Except PbErr StatusResponsePb :=
  pbUnmarshalLoop statusResponseHandleField (data.length + 1)
    { height := 0, base := 0 } data

/-- An `int64` value is inside its Go range. -/
def Int64Range (h : Int) : Prop := -(2 ^ 63) ≤ h ∧ h < 2 ^ 63

/-- Tag byte 0x08 carries field number 1. -/
theorem ofUint32_tag8 : ofUint32 (0x8 >>> 3) = 1 := by decide

/-- Tag byte 0x10 carries field number 2. -/
theorem ofUint32_tag16 : ofUint32 (0x10 >>> 3) = 2 := by decide

/-- Round trip of the spec-modelled `BlockRequest`, fuel-generalized. -/
theorem blockRequest_go (m : BlockRequestPb) (hr : Int64Range m.height)
    (fuel : Nat) (hfuel : (blockRequestMarshal m).length < fuel) :
    pbUnmarshalLoop blockRequestHandleField fuel { height := 0 }
      (blockRequestMarshal m) = .ok m := by
  by_cases h0 : m.height = 0
  · obtain ⟨k, rfl⟩ : ∃ k, fuel = k + 1 := ⟨fuel - 1, by omega⟩
    rw [show blockRequestMarshal m = [] by simp [blockRequestMarshal, h0],
      pbUnmarshalLoop_nil]
    cases m
    simp_all
  · have hmar : blockRequestMarshal m =
        0x8 :: encodeVarint (toUint64 m.height) := by
      simp [blockRequestMarshal, h0]
    have hevlen : 0 < (encodeVarint (toUint64 m.height)).length :=
      List.length_pos.mpr (encodeVarint_ne_nil _)
    rw [hmar] at hfuel ⊢
    obtain ⟨k, rfl⟩ : ∃ k, fuel = (k + 1) + 1 :=
      ⟨fuel - 2, by simp at hfuel; omega⟩
    have hh : blockRequestHandleField (ofUint32 (0x8 >>> 3)) (0x8 &&& 7)
        (encodeVarint (toUint64 m.height)) { height := 0 } =
        .ok ({ height := ofUint64 (toUint64 m.height) }, []) := by
      rw [ofUint32_tag8, show (0x8 : Nat) &&& 7 = 0 by decide]
      unfold blockRequestHandleField
      rw [if_pos rfl, if_neg (by decide)]
      have hrv := readVarint_encode (toUint64 m.height) [] (toUint64_lt _)
      rw [List.append_nil] at hrv
      rw [hrv]
    rw [pbUnmarshalLoop_step blockRequestHandleField (k + 1) _ _ 0x8 _ []
      (by decide) (by decide) (by decide) hh, pbUnmarshalLoop_nil]
    rw [ofUint64_toUint64 m.height hr.1 hr.2]

/-- Round trip of the spec-modelled `NoBlockResponse`,
fuel-generalized. -/
theorem noBlockResponse_go (m : NoBlockResponsePb) (hr : Int64Range m.height)
    (fuel : Nat) (hfuel : (noBlockResponseMarshal m).length < fuel) :
    pbUnmarshalLoop noBlockResponseHandleField fuel { height := 0 }
      (noBlockResponseMarshal m) = .ok m := by
  by_cases h0 : m.height = 0
  · obtain ⟨k, rfl⟩ : ∃ k, fuel = k + 1 := ⟨fuel - 1, by omega⟩
    rw [show noBlockResponseMarshal m = [] by
        simp [noBlockResponseMarshal, h0],
      pbUnmarshalLoop_nil]
    cases m
    simp_all
  · have hmar : noBlockResponseMarshal m =
        0x8 :: encodeVarint (toUint64 m.height) := by
      simp [noBlockResponseMarshal, h0]
    have hevlen : 0 < (encodeVarint (toUint64 m.height)).length :=
      List.length_pos.mpr (encodeVarint_ne_nil _)
    rw [hmar] at hfuel ⊢
    obtain ⟨k, rfl⟩ : ∃ k, fuel = (k + 1) + 1 :=
      ⟨fuel - 2, by simp at hfuel; omega⟩
    have hh : noBlockResponseHandleField (ofUint32 (0x8 >>> 3)) (0x8 &&& 7)
        (encodeVarint (toUint64 m.height)) { height := 0 } =
        .ok ({ height := ofUint64 (toUint64 m.height) }, []) := by
      rw [ofUint32_tag8, show (0x8 : Nat) &&& 7 = 0 by decide]
      unfold noBlockResponseHandleField
      rw [if_pos rfl, if_neg (by decide)]
      have hrv := readVarint_encode (toUint64 m.height) [] (toUint64_lt _)
      rw [List.append_nil] at hrv
      rw [hrv]
    rw [pbUnmarshalLoop_step noBlockResponseHandleField (k + 1) _ _ 0x8 _ []
      (by decide) (by decide) (by decide) hh, pbUnmarshalLoop_nil]
    rw [ofUint64_toUint64 m.height hr.1 hr.2]

/-- Round trip of the spec-modelled `StatusResponse`, fuel-generalized
over its four field-presence cases. -/
theorem statusResponse_go (m : StatusResponsePb)
    (hrh : Int64Range m.height) (hrb : Int64Range m.base)
    (fuel : Nat) (hfuel : (statusResponseMarshal m).length < fuel) :
    pbUnmarshalLoop statusResponseHandleField fuel { height := 0, base := 0 }
      (statusResponseMarshal m) = .ok m := by
  have hhh : ∀ (rest : Bytes) (cur : StatusResponsePb),
      statusResponseHandleField (ofUint32 (0x8 >>> 3)) (0x8 &&& 7)
        (encodeVarint (toUint64 m.height) ++ rest) cur =
      .ok ({ cur with height := ofUint64 (toUint64 m.height) }, rest) := by
    intro rest cur
    rw [ofUint32_tag8, show (0x8 : Nat) &&& 7 = 0 by decide]
    unfold statusResponseHandleField
    rw [if_pos rfl, if_neg (by decide),
      readVarint_encode (toUint64 m.height) rest (toUint64_lt _)]
  have hhb : ∀ (rest : Bytes) (cur : StatusResponsePb),
      statusResponseHandleField (ofUint32 (0x10 >>> 3)) (0x10 &&& 7)
        (encodeVarint (toUint64 m.base) ++ rest) cur =
      .ok ({ cur with base := ofUint64 (toUint64 m.base) }, rest) := by
    intro rest cur
    rw [ofUint32_tag16, show (0x10 : Nat) &&& 7 = 0 by decide]
    unfold statusResponseHandleField
    rw [if_neg (by decide), if_pos rfl, if_neg (by decide),
      readVarint_encode (toUint64 m.base) rest (toUint64_lt _)]
  have hlh : 0 < (encodeVarint (toUint64 m.height)).length :=
    List.length_pos.mpr (encodeVarint_ne_nil _)
  have hlb : 0 < (encodeVarint (toUint64 m.base)).length :=
    List.length_pos.mpr (encodeVarint_ne_nil _)
  by_cases h0 : m.height = 0 <;> by_cases b0 : m.base = 0
  · obtain ⟨k, rfl⟩ : ∃ k, fuel = k + 1 := ⟨fuel - 1, by omega⟩
    rw [show statusResponseMarshal m = [] by
        simp [statusResponseMarshal, h0, b0],
      pbUnmarshalLoop_nil]
    cases m
    simp_all
  · have hmar : statusResponseMarshal m =
        0x10 :: (encodeVarint (toUint64 m.base) ++ []) := by
      simp [statusResponseMarshal, h0, b0]
    rw [hmar] at hfuel ⊢
    obtain ⟨k, rfl⟩ : ∃ k, fuel = (k + 1) + 1 :=
      ⟨fuel - 2, by simp at hfuel; omega⟩
    rw [pbUnmarshalLoop_step statusResponseHandleField (k + 1) _ _ 0x10 _ []
      (by decide) (by decide) (by decide) (hhb [] _), pbUnmarshalLoop_nil]
    rw [ofUint64_toUint64 m.base hrb.1 hrb.2]
    cases m
    simp_all
  · have hmar : statusResponseMarshal m =
        0x8 :: (encodeVarint (toUint64 m.height) ++ []) := by
      simp [statusResponseMarshal, h0, b0]
    rw [hmar] at hfuel ⊢
    obtain ⟨k, rfl⟩ : ∃ k, fuel = (k + 1) + 1 :=
      ⟨fuel - 2, by simp at hfuel; omega⟩
    rw [pbUnmarshalLoop_step statusResponseHandleField (k + 1) _ _ 0x8 _ []
      (by decide) (by decide) (by decide) (hhh [] _), pbUnmarshalLoop_nil]
    rw [ofUint64_toUint64 m.height hrh.1 hrh.2]
    cases m
    simp_all
  · have hmar : statusResponseMarshal m =
        0x8 :: (encodeVarint (toUint64 m.height) ++
          (0x10 :: (encodeVarint (toUint64 m.base) ++ []))) := by
      simp [statusResponseMarshal, h0, b0]
    rw [hmar] at hfuel ⊢
    obtain ⟨k, rfl⟩ : ∃ k, fuel = ((k + 1) + 1) + 1 :=
      ⟨fuel - 3, by simp at hfuel; omega⟩
    rw [pbUnmarshalLoop_step statusResponseHandleField ((k + 1) + 1) _ _ 0x8 _
      (0x10 :: (encodeVarint (toUint64 m.base) ++ []))
      (by decide) (by decide) (by decide) (hhh _ _)]
    rw [pbUnmarshalLoop_step statusResponseHandleField (k + 1) _ _ 0x10 _ []
      (by decide) (by decide) (by decide) (hhb [] _), pbUnmarshalLoop_nil]
    rw [ofUint64_toUint64 m.height hrh.1 hrh.2,
      ofUint64_toUint64 m.base hrb.1 hrb.2]

/-- A varint of a `uint64` value takes at most ten bytes. -/
theorem sovTypes_le (x : Nat) (hx : x < 2 ^ 64) : sovTypes x ≤ 10 := by
  rw [sovTypes_eq]
  have hlog : Nat.log 2 x ≤ 63 := by
    rcases Nat.eq_zero_or_pos x with h0 | hp
    · simp [h0]
    · have := Nat.log_lt_of_lt_pow (by omega) hx
      omega
  omega

/-- The marshalled `BlockRequest` occupies exactly its `Size`. -/
theorem blockRequestMarshal_length (m : BlockRequestPb) :
    (blockRequestMarshal m).length = blockRequestSize m := by
  unfold blockRequestMarshal blockRequestSize
  split <;> simp [length_encodeVarint] <;> omega

/-- The marshalled `NoBlockResponse` occupies exactly its `Size`. -/
theorem noBlockResponseMarshal_length (m : NoBlockResponsePb) :
    (noBlockResponseMarshal m).length = noBlockResponseSize m := by
  unfold noBlockResponseMarshal noBlockResponseSize
  split <;> simp [length_encodeVarint] <;> omega

/-- The marshalled `StatusRequest` occupies exactly its `Size`. -/
theorem statusRequestMarshal_length (m : StatusRequestPb) :
    (statusRequestMarshal m).length = statusRequestSize m := rfl

/-- The marshalled `StatusResponse` occupies exactly its `Size`. -/
theorem statusResponseMarshal_length (m : StatusResponsePb) :
    (statusResponseMarshal m).length = statusResponseSize m := by
  unfold statusResponseMarshal statusResponseSize
  split_ifs <;> simp [length_encodeVarint] <;> omega

/-- `BlockRequest` payloads stay tiny. -/
theorem blockRequestSize_le (m : BlockRequestPb) : blockRequestSize m ≤ 11 := by
  unfold blockRequestSize
  split
  · have := sovTypes_le (toUint64 m.height) (toUint64_lt _)
    omega
  · omega

/-- `NoBlockResponse` payloads stay tiny. -/
theorem noBlockResponseSize_le (m : NoBlockResponsePb) :
    noBlockResponseSize m ≤ 11 := by
  unfold noBlockResponseSize
  split
  · have := sovTypes_le (toUint64 m.height) (toUint64_lt _)
    omega
  · omega

/-- `StatusResponse` payloads stay tiny. -/
theorem statusResponseSize_le (m : StatusResponsePb) :
    statusResponseSize m ≤ 22 := by
  unfold statusResponseSize
  have h1 := sovTypes_le (toUint64 m.height) (toUint64_lt _)
  have h2 := sovTypes_le (toUint64 m.base) (toUint64_lt _)
  split_ifs <;> omega

/-- The interface the generated code assumes of an embedded message's
codec (`Size`, `MarshalToSizedBuffer`, `Unmarshal`); `v3.Block` and
`v3.ExtendedCommit` enter `BlockResponse` only through it, and the spec
declares their codecs external. -/
structure PbCodec (α : Type) where
  size : α → Nat
  marshal : α → Bytes
  unmarshal : Bytes → Except PbErr α

/-- The contract the generated code relies on: the buffer filled by a
sub-message matches its announced size, sizes are bounded (Go ints), and
decoding a fresh encoding restores the value. -/
structure PbCodecLaws {α : Type} (c : PbCodec α) : Prop where
  length_marshal : ∀ a, (c.marshal a).length = c.size a
  size_lt : ∀ a, c.size a < 2 ^ 60
  unmarshal_marshal : ∀ a, c.unmarshal (c.marshal a) = .ok a

/-- `BlockResponse` of types.pb.go (lines 28-31): optional block and
extended commit, both external messages. -/
structure BlockResponsePb (β γ : Type) where
  block : Option β
  extCommit : Option γ
  deriving DecidableEq, Repr

/-- `BlockResponse.Size` (types.pb.go lines 434-449). -/
def blockResponseSize (cB : PbCodec β) (cE : PbCodec γ)
    (m : BlockResponsePb β γ) : Nat :=
  (match m.block with
   | some b => 1 + cB.size b + sovTypes (cB.size b)
   | none => 0) +
  (match m.extCommit with
   | some e => 1 + cE.size e + sovTypes (cE.size e)
   | none => 0)

/-- `BlockResponse.MarshalToSizedBuffer` (types.pb.go lines 254-284):
the buffer is filled from the end, so on the wire the block field
(tag `0xa`) precedes the ext-commit field (tag `0x12`); each sub-message
is preceded by the varint of the byte count its marshal produced. -/
def blockResponseMarshal (cB : PbCodec β) (cE : PbCodec γ)
    (m : BlockResponsePb β γ) : Bytes :=
  (match m.block with
   | some b => 0xa :: (encodeVarint (cB.marshal b).length ++ cB.marshal b)
   | none => []) ++
  (match m.extCommit with
   | some e => 0x12 :: (encodeVarint (cE.marshal e).length ++ cE.marshal e)
   | none => [])

/-- Field switch of `BlockResponse.Unmarshal` (types.pb.go lines
558-644).  The generated code merges a repeated occurrence into the
previously allocated sub-message; with sub-messages behind an abstract
codec this embedding re-unmarshals into a fresh value instead, a
difference visible only on inputs that repeat a field, which no
marshalled output contains. -/
def blockResponseHandleField (cB : PbCodec β) (cE : PbCodec γ)
    (fieldNum : Int) (wireType : Nat) (rest : Bytes)
    (m : BlockResponsePb β γ) :
    Except PbErr (BlockResponsePb β γ × Bytes) :=
  if fieldNum = 1 then
    if wireType ≠ 2 then .error (.protoErr "wrong wireType for field Block")
    else
      match readLenDelim rest with
      | .error e => .error e
      | .ok (win, rest2) =>
        match cB.unmarshal win with
        | .error e => .error e
        | .ok b => .ok ({ m with block := some b }, rest2)
  else if fieldNum = 2 then
    if wireType ≠ 2 then
      .error (.protoErr "wrong wireType for field ExtCommit")
    else
      match readLenDelim rest with
      | .error e => .error e
      | .ok (win, rest2) =>
        match cE.unmarshal win with
        | .error e => .error e
        | .ok e2 => .ok ({ m with extCommit := some e2 }, rest2)
  else skipField rest m

/-- `BlockResponse.Unmarshal` (types.pb.go lines 530-651). -/
def blockResponseUnmarshal (cB : PbCodec β) (cE : PbCodec γ)
    (data : Bytes) : Except PbErr (BlockResponsePb β γ) :=
  pbUnmarshalLoop (blockResponseHandleField cB cE) (data.length + 1)
    { block := none, extCommit := none } data

/-- The marshalled `BlockResponse` occupies exactly its `Size` whenever
the sub-codecs do. -/
theorem blockResponseMarshal_length (cB : PbCodec β) (cE : PbCodec γ)
    (lB : PbCodecLaws cB) (lE : PbCodecLaws cE) (m : BlockResponsePb β γ) :
    (blockResponseMarshal cB cE m).length = blockResponseSize cB cE m := by
  unfold blockResponseMarshal blockResponseSize
  rcases m.block with _ | b <;> rcases m.extCommit with _ | e <;>
    simp [length_encodeVarint, lB.length_marshal, lE.length_marshal] <;>
      omega

/-- Round trip of `BlockResponse`, fuel-generalized over the four
presence cases of its two optional sub-messages. -/
theorem blockResponse_go (cB : PbCodec β) (cE : PbCodec γ)
    (lB : PbCodecLaws cB) (lE : PbCodecLaws cE) (m : BlockResponsePb β γ)
    (fuel : Nat) (hfuel : (blockResponseMarshal cB cE m).length < fuel) :
    pbUnmarshalLoop (blockResponseHandleField cB cE) fuel
      { block := none, extCommit := none } (blockResponseMarshal cB cE m) =
      .ok m := by
  have hlenB : ∀ b, (cB.marshal b).length < 2 ^ 63 := fun b => by
    rw [lB.length_marshal]
    have := lB.size_lt b
    norm_num at this ⊢
    omega
  have hlenE : ∀ e, (cE.marshal e).length < 2 ^ 63 := fun e => by
    rw [lE.length_marshal]
    have := lE.size_lt e
    norm_num at this ⊢
    omega
  have hhB : ∀ (rest : Bytes) (cur : BlockResponsePb β γ) (b : β),
      blockResponseHandleField cB cE (ofUint32 (0xa >>> 3)) (0xa &&& 7)
        (encodeVarint (cB.marshal b).length ++ (cB.marshal b ++ rest)) cur =
      .ok ({ cur with block := some b }, rest) := by
    intro rest cur b
    rw [show ofUint32 (0xa >>> 3) = 1 by decide,
      show (0xa : Nat) &&& 7 = 2 by decide]
    unfold blockResponseHandleField
    rw [if_pos rfl, if_neg (by decide),
      readLenDelim_encode (cB.marshal b) rest (hlenB b)]
    simp [lB.unmarshal_marshal b]
  have hhE : ∀ (rest : Bytes) (cur : BlockResponsePb β γ) (e : γ),
      blockResponseHandleField cB cE (ofUint32 (0x12 >>> 3)) (0x12 &&& 7)
        (encodeVarint (cE.marshal e).length ++ (cE.marshal e ++ rest)) cur =
      .ok ({ cur with extCommit := some e }, rest) := by
    intro rest cur e
    rw [show ofUint32 (0x12 >>> 3) = 2 by decide,
      show (0x12 : Nat) &&& 7 = 2 by decide]
    unfold blockResponseHandleField
    rw [if_neg (by decide), if_pos rfl, if_neg (by decide),
      readLenDelim_encode (cE.marshal e) rest (hlenE e)]
    simp [lE.unmarshal_marshal e]
  rcases hb : m.block with _ | b <;> rcases he : m.extCommit with _ | e
  · obtain ⟨k, rfl⟩ : ∃ k, fuel = k + 1 := ⟨fuel - 1, by omega⟩
    rw [show blockResponseMarshal cB cE m = [] by
        simp [blockResponseMarshal, hb, he],
      pbUnmarshalLoop_nil]
    cases m
    simp_all
  · have hmar : blockResponseMarshal cB cE m =
        0x12 :: (encodeVarint (cE.marshal e).length ++ (cE.marshal e ++ [])) := by
      simp [blockResponseMarshal, hb, he]
    rw [hmar] at hfuel ⊢
    obtain ⟨k, rfl⟩ : ∃ k, fuel = (k + 1) + 1 :=
      ⟨fuel - 2, by simp at hfuel; omega⟩
    rw [pbUnmarshalLoop_step (blockResponseHandleField cB cE) (k + 1) _ _
      0x12 _ [] (by decide) (by decide) (by decide) (hhE [] _ e),
      pbUnmarshalLoop_nil]
    cases m
    simp_all
  · have hmar : blockResponseMarshal cB cE m =
        0xa :: (encodeVarint (cB.marshal b).length ++ (cB.marshal b ++ [])) := by
      simp [blockResponseMarshal, hb, he]
    rw [hmar] at hfuel ⊢
    obtain ⟨k, rfl⟩ : ∃ k, fuel = (k + 1) + 1 :=
      ⟨fuel - 2, by simp at hfuel; omega⟩
    rw [pbUnmarshalLoop_step (blockResponseHandleField cB cE) (k + 1) _ _
      0xa _ [] (by decide) (by decide) (by decide) (hhB [] _ b),
      pbUnmarshalLoop_nil]
    cases m
    simp_all
  · have hmar : blockResponseMarshal cB cE m =
        0xa :: (encodeVarint (cB.marshal b).length ++ (cB.marshal b ++
          (0x12 :: (encodeVarint (cE.marshal e).length ++
            (cE.marshal e ++ []))))) := by
      simp [blockResponseMarshal, hb, he]
    rw [hmar] at hfuel ⊢
    obtain ⟨k, rfl⟩ : ∃ k, fuel = ((k + 1) + 1) + 1 :=
      ⟨fuel - 3, by simp at hfuel; omega⟩
    rw [pbUnmarshalLoop_step (blockResponseHandleField cB cE) ((k + 1) + 1)
      _ _ 0xa _ _ (by decide) (by decide) (by decide) (hhB _ _ b)]
    rw [pbUnmarshalLoop_step (blockResponseHandleField cB cE) (k + 1) _ _
      0x12 _ [] (by decide) (by decide) (by decide) (hhE [] _ e),
      pbUnmarshalLoop_nil]
    cases m
    simp_all

/-- `BlockResponse` payload sizes stay below the signed-64-bit bound
whenever the sub-codecs respect theirs. -/
theorem blockResponseSize_lt (cB : PbCodec β) (cE : PbCodec γ)
    (lB : PbCodecLaws cB) (lE : PbCodecLaws cE) (m : BlockResponsePb β γ) :
    blockResponseSize cB cE m < 2 ^ 62 := by
  unfold blockResponseSize
  have hB : ∀ b, cB.size b < 2 ^ 60 := lB.size_lt
  have hE : ∀ e, cE.size e < 2 ^ 60 := lE.size_lt
  rcases m.block with _ | b <;> rcases m.extCommit with _ | e <;>
    simp only []
  · norm_num
  · have h1 := hE e
    have h2 := sovTypes_le (cE.size e) (by have := hE e; norm_num at this ⊢; omega)
    norm_num at h1 ⊢
    omega
  · have h1 := hB b
    have h2 := sovTypes_le (cB.size b) (by have := hB b; norm_num at this ⊢; omega)
    norm_num at h1 ⊢
    omega
  · have h1 := hB b
    have h2 := hE e
    have h3 := sovTypes_le (cB.size b) (by have := hB b; norm_num at this ⊢; omega)
    have h4 := sovTypes_le (cE.size e) (by have := hE e; norm_num at this ⊢; omega)
    norm_num at h1 h2 ⊢
    omega

/-- Top-level round trip of the spec-modelled `BlockRequest`. -/
theorem blockRequestUnmarshal_marshal (m : BlockRequestPb)
    (hr : Int64Range m.height) :
    blockRequestUnmarshal (blockRequestMarshal m) = .ok m := by
  unfold blockRequestUnmarshal
  exact blockRequest_go m hr _ (Nat.lt_succ_self _)

/-- Top-level round trip of the spec-modelled `NoBlockResponse`. -/
theorem noBlockResponseUnmarshal_marshal (m : NoBlockResponsePb)
    (hr : Int64Range m.height) :
    noBlockResponseUnmarshal (noBlockResponseMarshal m) = .ok m := by
  unfold noBlockResponseUnmarshal
  exact noBlockResponse_go m hr _ (Nat.lt_succ_self _)

/-- Top-level round trip of the spec-modelled `StatusRequest`. -/
theorem statusRequestUnmarshal_marshal (m : StatusRequestPb) :
    statusRequestUnmarshal (statusRequestMarshal m) = .ok m := rfl

/-- Top-level round trip of the spec-modelled `StatusResponse`. -/
theorem statusResponseUnmarshal_marshal (m : StatusResponsePb)
    (hrh : Int64Range m.height) (hrb : Int64Range m.base) :
    statusResponseUnmarshal (statusResponseMarshal m) = .ok m := by
  unfold statusResponseUnmarshal
  exact statusResponse_go m hrh hrb _ (Nat.lt_succ_self _)

/-- Top-level round trip of `BlockResponse`. -/
theorem blockResponseUnmarshal_marshal (cB : PbCodec β) (cE : PbCodec γ)
    (lB : PbCodecLaws cB) (lE : PbCodecLaws cE) (m : BlockResponsePb β γ) :
    blockResponseUnmarshal cB cE (blockResponseMarshal cB cE m) = .ok m := by
  unfold blockResponseUnmarshal
  exact blockResponse_go cB cE lB lE m _ (Nat.lt_succ_self _)

/-- The oneof `Message.Sum` of types.pb.go (lines 123-149): exactly the
five block-sync wire messages, each behind a non-nil wrapper payload. -/
inductive MessageSum (β γ : Type) where
  | blockRequest (m : BlockRequestPb)
  | noBlockResponse (m : NoBlockResponsePb)
  | blockResponse (m : BlockResponsePb β γ)
  | statusRequest (m : StatusRequestPb)
  | statusResponse (m : StatusResponsePb)
  deriving DecidableEq, Repr

/-- `Message` of types.pb.go (lines 80-88): an optional oneof. -/
structure MessagePb (β γ : Type) where
  sum : Option (MessageSum β γ)
  deriving DecidableEq, Repr

/-- Per-wrapper `Size` (types.pb.go lines 463-522). -/
def messageSumSize (cB : PbCodec β) (cE : PbCodec γ) :
    MessageSum β γ → Nat
  | .blockRequest br =>
    1 + blockRequestSize br + sovTypes (blockRequestSize br)
  | .noBlockResponse nr =>
    1 + noBlockResponseSize nr + sovTypes (noBlockResponseSize nr)
  | .blockResponse b =>
    1 + blockResponseSize cB cE b + sovTypes (blockResponseSize cB cE b)
  | .statusRequest sq =>
    1 + statusRequestSize sq + sovTypes (statusRequestSize sq)
  | .statusResponse sr =>
    1 + statusResponseSize sr + sovTypes (statusResponseSize sr)

/-- `Message.Size` (types.pb.go lines 451-461). -/
def messageSize (cB : PbCodec β) (cE : PbCodec γ) (m : MessagePb β γ) : Nat :=
  match m.sum with
  | none => 0
  | some s => messageSumSize cB cE s

/-- Per-wrapper `MarshalToSizedBuffer` (types.pb.go lines 318-422):
field tags 1-5 with wire type 2 (`0xa`, `0x12`, `0x1a`, `0x22`, `0x2a`),
each followed by the varint byte count of the embedded marshal. -/
def messageSumMarshal (cB : PbCodec β) (cE : PbCodec γ) :
    MessageSum β γ → Bytes
  | .blockRequest br =>
    0xa :: (encodeVarint (blockRequestMarshal br).length ++
      blockRequestMarshal br)
  | .noBlockResponse nr =>
    0x12 :: (encodeVarint (noBlockResponseMarshal nr).length ++
      noBlockResponseMarshal nr)
  | .blockResponse b =>
    0x1a :: (encodeVarint (blockResponseMarshal cB cE b).length ++
      blockResponseMarshal cB cE b)
  | .statusRequest sq =>
    0x22 :: (encodeVarint (statusRequestMarshal sq).length ++
      statusRequestMarshal sq)
  | .statusResponse sr =>
    0x2a :: (encodeVarint (statusResponseMarshal sr).length ++
      statusResponseMarshal sr)

/-- `Message.Marshal` (types.pb.go lines 286-316): nothing for a nil
`Sum`, the wrapper's bytes otherwise. -/
def messageMarshal (cB : PbCodec β) (cE : PbCodec γ)
    (m : MessagePb β γ) : Bytes :=
  match m.sum with
  | none => []
  | some s => messageSumMarshal cB cE s

/-- Field switch of `Message.Unmarshal` (types.pb.go lines 680-869):
each known field re-reads its sub-message and replaces `Sum`. -/
def messageHandleField (cB : PbCodec β) (cE : PbCodec γ)
    (fieldNum : Int) (wireType : Nat) (rest : Bytes) (m : MessagePb β γ) :
    Except PbErr (MessagePb β γ × Bytes) :=
  if fieldNum = 1 then
    if wireType ≠ 2 then
      .error (.protoErr "wrong wireType for field BlockRequest")
    else
      match readLenDelim rest with
      | .error e => .error e
      | .ok (win, rest2) =>
        match blockRequestUnmarshal win with
        | .error e => .error e
        | .ok v => .ok ({ sum := some (.blockRequest v) }, rest2)
  else if fieldNum = 2 then
    if wireType ≠ 2 then
      .error (.protoErr "wrong wireType for field NoBlockResponse")
    else
      match readLenDelim rest with
      | .error e => .error e
      | .ok (win, rest2) =>
        match noBlockResponseUnmarshal win with
        | .error e => .error e
        | .ok v => .ok ({ sum := some (.noBlockResponse v) }, rest2)
  else if fieldNum = 3 then
    if wireType ≠ 2 then
      .error (.protoErr "wrong wireType for field BlockResponse")
    else
      match readLenDelim rest with
      | .error e => .error e
      | .ok (win, rest2) =>
        match blockResponseUnmarshal cB cE win with
        | .error e => .error e
        | .ok v => .ok ({ sum := some (.blockResponse v) }, rest2)
  else if fieldNum = 4 then
    if wireType ≠ 2 then
      .error (.protoErr "wrong wireType for field StatusRequest")
    else
      match readLenDelim rest with
      | .error e => .error e
      | .ok (win, rest2) =>
        match statusRequestUnmarshal win with
        | .error e => .error e
        | .ok v => .ok ({ sum := some (.statusRequest v) }, rest2)
  else if fieldNum = 5 then
    if wireType ≠ 2 then
      .error (.protoErr "wrong wireType for field StatusResponse")
    else
      match readLenDelim rest with
      | .error e => .error e
      | .ok (win, rest2) =>
        match statusResponseUnmarshal win with
        | .error e => .error e
        | .ok v => .ok ({ sum := some (.statusResponse v) }, rest2)
  else skipField rest m

/-- `Message.Unmarshal` (types.pb.go lines 652-876). -/
def messageUnmarshal (cB : PbCodec β) (cE : PbCodec γ) (data : Bytes) :
    Except PbErr (MessagePb β γ) :=
  pbUnmarshalLoop (messageHandleField cB cE) (data.length + 1)
    { sum := none } data

/-- The protobuf field number (1-5) of a message's populated variant
(0 for a nil `Sum`). -/
def messageTag : MessagePb β γ → Nat
  | { sum := some (.blockRequest _) } => 1
  | { sum := some (.noBlockResponse _) } => 2
  | { sum := some (.blockResponse _) } => 3
  | { sum := some (.statusRequest _) } => 4
  | { sum := some (.statusResponse _) } => 5
  | { sum := none } => 0

/-- A wire message with its oneof populated by one of the five variants
and every `int64` field inside its Go range. -/
def MessageWf (m : MessagePb β γ) : Prop :=
  match m.sum with
  | some (.blockRequest br) => Int64Range br.height
  | some (.noBlockResponse nr) => Int64Range nr.height
  | some (.blockResponse _) => True
  | some (.statusRequest _) => True
  | some (.statusResponse sr) => Int64Range sr.height ∧ Int64Range sr.base
  | none => False

/-- Exhausted input returns the accumulated message, for any positive
fuel. -/
theorem pbUnmarshalLoop_nil_pos
    (handle : Int → Nat → Bytes → α → Except PbErr (α × Bytes))
    (fuel : Nat) (m : α) (hf : 0 < fuel) :
    pbUnmarshalLoop handle fuel m [] = .ok m := by
  obtain ⟨k, rfl⟩ : ∃ k, fuel = k + 1 := ⟨fuel - 1, by omega⟩
  rfl

/-- Claim C8: for every wire `Message` whose `Sum` is one of the five
variants (with `int64` fields in range and law-abiding external codecs
for the embedded block and extended commit), `Unmarshal` of the
`Marshal` output reconstructs the original message, the marshalled
buffer is exactly `Size()` bytes long, and its first byte is the
protobuf tag of the variant's field number 1-5 with wire type 2. -/
theorem message_roundtrip (cB : PbCodec β) (cE : PbCodec γ)
    (lB : PbCodecLaws cB) (lE : PbCodecLaws cE) (m : MessagePb β γ)
    (hwf : MessageWf m) :
    messageUnmarshal cB cE (messageMarshal cB cE m) = .ok m ∧
    (messageMarshal cB cE m).length = messageSize cB cE m ∧
    (messageMarshal cB cE m).head? = some (8 * messageTag m + 2) := by
  rcases m with ⟨ms⟩
  rcases ms with _ | s
  · exact absurd hwf (by simp [MessageWf])
  rcases s with br | nr | b | sq | sr
  · -- BlockRequest, field 1, tag 0xa
    have hr : Int64Range br.height := hwf
    have hlen : (blockRequestMarshal br).length < 2 ^ 63 := by
      rw [blockRequestMarshal_length]
      have := blockRequestSize_le br
      omega
    refine ⟨?_, ?_, ?_⟩
    · unfold messageUnmarshal
      have hmar : messageMarshal cB cE ⟨some (.blockRequest br)⟩ =
          0xa :: (encodeVarint (blockRequestMarshal br).length ++
            (blockRequestMarshal br ++ [])) := by
        simp [messageMarshal, messageSumMarshal]
      rw [hmar, List.length_cons]
      have hh : messageHandleField cB cE (ofUint32 ((0xa : Nat) >>> 3))
          ((0xa : Nat) &&& 7)
          (encodeVarint (blockRequestMarshal br).length ++
            (blockRequestMarshal br ++ [])) { sum := none } =
          .ok ({ sum := some (.blockRequest br) }, []) := by
        rw [show ofUint32 ((0xa : Nat) >>> 3) = 1 by decide,
          show (0xa : Nat) &&& 7 = 2 by decide]
        unfold messageHandleField
        rw [if_pos rfl, if_neg (by decide),
          readLenDelim_encode _ _ hlen]
        simp [blockRequestUnmarshal_marshal br hr]
      rw [pbUnmarshalLoop_step _ _ _ _ 0xa _ []
        (by decide) (by decide) (by decide) hh]
      exact pbUnmarshalLoop_nil_pos _ _ _ (by
        have := List.length_pos.mpr
          (encodeVarint_ne_nil (blockRequestMarshal br).length)
        simp)
    · simp [messageMarshal, messageSumMarshal, messageSize, messageSumSize,
        length_encodeVarint, blockRequestMarshal_length]
      omega
    · simp [messageMarshal, messageSumMarshal, messageTag]
  · -- NoBlockResponse, field 2, tag 0x12
    have hr : Int64Range nr.height := hwf
    have hlen : (noBlockResponseMarshal nr).length < 2 ^ 63 := by
      rw [noBlockResponseMarshal_length]
      have := noBlockResponseSize_le nr
      omega
    refine ⟨?_, ?_, ?_⟩
    · unfold messageUnmarshal
      have hmar : messageMarshal cB cE ⟨some (.noBlockResponse nr)⟩ =
          0x12 :: (encodeVarint (noBlockResponseMarshal nr).length ++
            (noBlockResponseMarshal nr ++ [])) := by
        simp [messageMarshal, messageSumMarshal]
      rw [hmar, List.length_cons]
      have hh : messageHandleField cB cE (ofUint32 ((0x12 : Nat) >>> 3))
          ((0x12 : Nat) &&& 7)
          (encodeVarint (noBlockResponseMarshal nr).length ++
            (noBlockResponseMarshal nr ++ [])) { sum := none } =
          .ok ({ sum := some (.noBlockResponse nr) }, []) := by
        rw [show ofUint32 ((0x12 : Nat) >>> 3) = 2 by decide,
          show (0x12 : Nat) &&& 7 = 2 by decide]
        unfold messageHandleField
        rw [if_neg (by decide), if_pos rfl, if_neg (by decide),
          readLenDelim_encode _ _ hlen]
        simp [noBlockResponseUnmarshal_marshal nr hr]
      rw [pbUnmarshalLoop_step _ _ _ _ 0x12 _ []
        (by decide) (by decide) (by decide) hh]
      exact pbUnmarshalLoop_nil_pos _ _ _ (by
        have := List.length_pos.mpr
          (encodeVarint_ne_nil (noBlockResponseMarshal nr).length)
        simp)
    · simp [messageMarshal, messageSumMarshal, messageSize, messageSumSize,
        length_encodeVarint, noBlockResponseMarshal_length]
      omega
    · simp [messageMarshal, messageSumMarshal, messageTag]
  · -- BlockResponse, field 3, tag 0x1a
    have hlen : (blockResponseMarshal cB cE b).length < 2 ^ 63 := by
      rw [blockResponseMarshal_length cB cE lB lE]
      have := blockResponseSize_lt cB cE lB lE b
      norm_num at this ⊢
      omega
    refine ⟨?_, ?_, ?_⟩
    · unfold messageUnmarshal
      have hmar : messageMarshal cB cE ⟨some (.blockResponse b)⟩ =
          0x1a :: (encodeVarint (blockResponseMarshal cB cE b).length ++
            (blockResponseMarshal cB cE b ++ [])) := by
        simp [messageMarshal, messageSumMarshal]
      rw [hmar, List.length_cons]
      have hh : messageHandleField cB cE (ofUint32 ((0x1a : Nat) >>> 3))
          ((0x1a : Nat) &&& 7)
          (encodeVarint (blockResponseMarshal cB cE b).length ++
            (blockResponseMarshal cB cE b ++ [])) { sum := none } =
          .ok ({ sum := some (.blockResponse b) }, []) := by
        rw [show ofUint32 ((0x1a : Nat) >>> 3) = 3 by decide,
          show (0x1a : Nat) &&& 7 = 2 by decide]
        unfold messageHandleField
        rw [if_neg (by decide), if_neg (by decide), if_pos rfl,
          if_neg (by decide), readLenDelim_encode _ _ hlen]
        simp [blockResponseUnmarshal_marshal cB cE lB lE b]
      rw [pbUnmarshalLoop_step _ _ _ _ 0x1a _ []
        (by decide) (by decide) (by decide) hh]
      exact pbUnmarshalLoop_nil_pos _ _ _ (by
        have := List.length_pos.mpr
          (encodeVarint_ne_nil (blockResponseMarshal cB cE b).length)
        simp)
    · simp [messageMarshal, messageSumMarshal, messageSize, messageSumSize,
        length_encodeVarint, blockResponseMarshal_length cB cE lB lE]
      omega
    · simp [messageMarshal, messageSumMarshal, messageTag]
  · -- StatusRequest, field 4, tag 0x22
    have hlen : (statusRequestMarshal sq).length < 2 ^ 63 := by
      rw [statusRequestMarshal_length]
      norm_num [statusRequestSize]
    refine ⟨?_, ?_, ?_⟩
    · unfold messageUnmarshal
      have hmar : messageMarshal cB cE ⟨some (.statusRequest sq)⟩ =
          0x22 :: (encodeVarint (statusRequestMarshal sq).length ++
            (statusRequestMarshal sq ++ [])) := by
        simp [messageMarshal, messageSumMarshal]
      rw [hmar, List.length_cons]
      have hh : messageHandleField cB cE (ofUint32 ((0x22 : Nat) >>> 3))
          ((0x22 : Nat) &&& 7)
          (encodeVarint (statusRequestMarshal sq).length ++
            (statusRequestMarshal sq ++ [])) { sum := none } =
          .ok ({ sum := some (.statusRequest sq) }, []) := by
        rw [show ofUint32 ((0x22 : Nat) >>> 3) = 4 by decide,
          show (0x22 : Nat) &&& 7 = 2 by decide]
        unfold messageHandleField
        rw [if_neg (by decide), if_neg (by decide), if_neg (by decide),
          if_pos rfl, if_neg (by decide), readLenDelim_encode _ _ hlen]
        simp [statusRequestUnmarshal_marshal sq]
      rw [pbUnmarshalLoop_step _ _ _ _ 0x22 _ []
        (by decide) (by decide) (by decide) hh]
      exact pbUnmarshalLoop_nil_pos _ _ _ (by
        have := List.length_pos.mpr
          (encodeVarint_ne_nil (statusRequestMarshal sq).length)
        simp)
    · simp [messageMarshal, messageSumMarshal, messageSize, messageSumSize,
        length_encodeVarint, statusRequestMarshal_length]
      omega
    · simp [messageMarshal, messageSumMarshal, messageTag]
  · -- StatusResponse, field 5, tag 0x2a
    have hrh : Int64Range sr.height := hwf.1
    have hrb : Int64Range sr.base := hwf.2
    have hlen : (statusResponseMarshal sr).length < 2 ^ 63 := by
      rw [statusResponseMarshal_length]
      have := statusResponseSize_le sr
      omega
    refine ⟨?_, ?_, ?_⟩
    · unfold messageUnmarshal
      have hmar : messageMarshal cB cE ⟨some (.statusResponse sr)⟩ =
          0x2a :: (encodeVarint (statusResponseMarshal sr).length ++
            (statusResponseMarshal sr ++ [])) := by
        simp [messageMarshal, messageSumMarshal]
      rw [hmar, List.length_cons]
      have hh : messageHandleField cB cE (ofUint32 ((0x2a : Nat) >>> 3))
          ((0x2a : Nat) &&& 7)
          (encodeVarint (statusResponseMarshal sr).length ++
            (statusResponseMarshal sr ++ [])) { sum := none } =
          .ok ({ sum := some (.statusResponse sr) }, []) := by
        rw [show ofUint32 ((0x2a : Nat) >>> 3) = 5 by decide,
          show (0x2a : Nat) &&& 7 = 2 by decide]
        unfold messageHandleField
        rw [if_neg (by decide), if_neg (by decide), if_neg (by decide),
          if_neg (by decide), if_pos rfl, if_neg (by decide),
          readLenDelim_encode _ _ hlen]
        simp [statusResponseUnmarshal_marshal sr hrh hrb]
      rw [pbUnmarshalLoop_step _ _ _ _ 0x2a _ []
        (by decide) (by decide) (by decide) hh]
      exact pbUnmarshalLoop_nil_pos _ _ _ (by
        have := List.length_pos.mpr
          (encodeVarint_ne_nil (statusResponseMarshal sr).length)
        simp)
    · simp [messageMarshal, messageSumMarshal, messageSize, messageSumSize,
        length_encodeVarint, statusResponseMarshal_length]
      omega
    · simp [messageMarshal, messageSumMarshal, messageTag]

/-- A trivial law-abiding codec, used to witness the round trip at a
concrete message. -/
def unitCodec : PbCodec Unit :=
  { size := fun _ => 0
    marshal := fun _ => []
    unmarshal := fun _ => .ok () }

/-- The trivial codec satisfies the codec laws. -/
theorem unitCodec_laws : PbCodecLaws unitCodec :=
  ⟨fun _ => rfl, fun _ => by norm_num [unitCodec], fun _ => rfl⟩

/-- The concrete witness message: a `BlockRequest` for height 5. -/
def msgW : MessagePb Unit Unit := ⟨some (.blockRequest ⟨5⟩)⟩

/-- Witness for claim C8 at the concrete message `msgW` with the
trivial external codecs. -/
theorem message_roundtrip_witness :
    messageUnmarshal unitCodec unitCodec
      (messageMarshal unitCodec unitCodec msgW) = .ok msgW ∧
    (messageMarshal unitCodec unitCodec msgW).length =
      messageSize unitCodec unitCodec msgW ∧
    (messageMarshal unitCodec unitCodec msgW).head? =
      some (8 * messageTag msgW + 2) :=
  message_roundtrip unitCodec unitCodec unitCodec_laws unitCodec_laws msgW
    (by exact ⟨by norm_num, by norm_num⟩)

/-- Witness for claim C6: a caught-up pool at a concrete state triggers
pool stop, flag clear and the handoff. -/
theorem switchTick_spec_witness :
    switchTickStep true 0 true smC1 1 false =
      ([.poolStop, .unsetBlockSync,
        .switchToConsensus smC1 (decide (0 < 1) || false)], true) :=
  (switchTick_spec true 0 smC1 1 false).1 (Or.inl rfl)
